import Mathlib

/-!
# Sequential schema migration runner (migration.go)

A shallow embedding of `checkFileNameFormat`, `readMetadata`, `writeMetadata` and
`MigrateDB`, followed by the properties established about them.

Modelling conventions.

* A Go string is a Lean `String`, i.e. a sequence of Unicode scalar values (valid UTF-8).
  Go compares strings byte-wise; on valid UTF-8 the byte-wise order is the order of the
  code point sequences, which is the order used here.
* The database is an explicit value `DB`: the statement batches committed so far and the
  `script_name` column of `migrations_metadata` listed by ascending `migrated_at`
  (an absent table and an empty table both read as no rows; `NOW()` is later than every
  stored `migrated_at`, so an insert appends at the end).
* Everything the run cannot control is a field of `Env`: the glob result, whether the
  `CREATE TABLE` and the `SELECT` succeed, the file contents, and whether an `Exec` of a
  statement batch or an `INSERT` of a metadata row succeeds in a given database state.
  `database.Begin`, `tx.Commit` and `tx.Rollback` are taken to succeed (the code discards
  their results).
* `filepath.Glob` lists each matching path once; where a property needs it, the list of
  discovered files is assumed free of duplicates.
* The calls a run makes on the database are logged, in order, in a trace of `Event`s carried
  along with the loop variables; the trace has no counterpart in the source and is only read by
  the statements below (`executed`, `committed`, `rolledBack`, `writes`, `recorded`).
* `MigrateDB` returns nothing in the source; here it returns the final database, the loop
  variables, the trace and how the call ended, from which the final log line is `report`.
-/

namespace Migration

set_option maxRecDepth 100000

/-! ## The fragment of Go regular expressions used by `fileNameRegex` -/

/-- Regular expressions: a one-rune class, the empty expression, concatenation, the
counted repetition `a{n}` and the repetition `a+`. -/
inductive Re where
  | cls (p : Char → Bool)
  | eps
  | cat (a b : Re)
  | rep (n : Nat) (a : Re)
  | plus (a : Re)

/-- All remainders after `n` consecutive matches of `f`. -/
def repeatRem (f : List Char → List (List Char)) : Nat → List Char → List (List Char)
  | 0, s => [s]
  | n + 1, s => (f s).flatMap (repeatRem f n)

/-- All remainders after one or more consecutive matches of `f` (at most `fuel` of them). -/
def plusRem (f : List Char → List (List Char)) : Nat → List Char → List (List Char)
  | 0, _ => []
  | fuel + 1, s => (f s).flatMap (fun t => t :: plusRem f fuel t)

/-- The remainders of the input after every way of matching a prefix of it. -/
def Re.rem : Re → List Char → List (List Char)
  | .cls p => fun s =>
    match s with
    | [] => []
    | c :: t => if p c then [t] else []
  | .eps => fun s => [s]
  | .cat a b => fun s => (a.rem s).flatMap b.rem
  | .rep n a => repeatRem a.rem n
  | .plus a => fun s => plusRem a.rem s.length s

/-- A literal string: the concatenation of its characters. -/
def Re.lit (s : String) : Re :=
  s.toList.foldr (fun c r => Re.cat (Re.cls (fun x => x == c)) r) Re.eps

/-- Perl class `\d`: the ASCII digits. -/
def isDigit (c : Char) : Bool := decide (48 ≤ c.toNat) && decide (c.toNat ≤ 57)

/-- Perl class `\s` of Go regexp: tab, newline, form feed, carriage return, space. -/
def isSpace (c : Char) : Bool :=
  c.toNat == 9 || c.toNat == 10 || c.toNat == 12 || c.toNat == 13 || c.toNat == 32

/-- Perl class `\S`. -/
def isNonSpace (c : Char) : Bool := !isSpace c

/-- The class `.`: any character but newline. -/
def isAnyButNewline (c : Char) : Bool := c.toNat != 10

/-- `regexp.MatchString`: some substring of `s` matches (the expression is not anchored). -/
def MatchString (r : Re) (s : String) : Bool :=
  s.toList.tails.any (fun t => !(r.rem t).isEmpty)

/-- The pattern `scripts/\d{20}_\S+.sql` of the source. -/
def fileNameRegex : Re :=
  .cat (Re.lit "scripts/")
    (.cat (.rep 20 (.cls isDigit))
      (.cat (Re.lit "_")
        (.cat (.plus (.cls isNonSpace))
          (.cat (.cls isAnyButNewline) (Re.lit "sql")))))

/-- Checks if sql file name is in correct format. -/
def checkFileNameFormat (fileName : String) : Bool :=
  MatchString fileNameRegex fileName

/-! ## String comparison -/

/-- Go's `a < b` on strings. -/
def lessString (a b : String) : Bool := decide (a.toList < b.toList)

/-- Go's `strings.Compare`. -/
def stringsCompare (a b : String) : Int :=
  if a == b then 0 else if lessString a b then -1 else 1

/-- Go's `sort.Strings`: the ascending rearrangement of the slice. -/
def sortStrings (l : List String) : List String :=
  l.insertionSort (fun a b => lessString b a = false)

/-! ## Database and environment -/

/-- The target database. -/
structure DB where
  /-- statement batches committed so far, oldest first -/
  schema : List String
  /-- rows of `migrations_metadata` (the `script_name` column), oldest `migrated_at` first -/
  metadata : List String
deriving DecidableEq, Repr

/-- What the run cannot control. -/
structure Env where
  /-- result of `filepath.Glob("./migrations/scripts/*.sql")`, `none` on error -/
  glob : Option (List String)
  /-- whether `CREATE TABLE IF NOT EXISTS migrations_metadata` succeeds -/
  createOk : Bool
  /-- whether the `SELECT script_name ...` query itself succeeds -/
  getOk : Bool
  /-- result of `os.ReadFile`, `none` on error (no data is returned then) -/
  readFile : String → Option String
  /-- whether executing the statement batch in a transaction on this database succeeds -/
  execOk : DB → String → Bool
  /-- whether the `INSERT INTO migrations_metadata` for this script name succeeds -/
  insertOk : DB → String → Bool

/-- An open transaction: the database it started from and the batches executed in it. -/
structure Tx where
  base : DB
  pending : List String

/-- The result of `database.Begin`. -/
def DB.begin (db : DB) : Tx := { base := db, pending := [] }

/-- The call `tx.Exec(sql)`, `none` on error. -/
def Tx.exec (env : Env) (tx : Tx) (sql : String) : Option Tx :=
  if env.execOk tx.base sql then some { tx with pending := tx.pending ++ [sql] } else none

/-- The call `tx.Commit()`. -/
def Tx.commit (tx : Tx) : DB := { tx.base with schema := tx.base.schema ++ tx.pending }

/-- The call `tx.Rollback()`. -/
def Tx.rollback (tx : Tx) : DB := tx.base

/-- A call made on the database, or the log line of a rejected name. -/
inductive Event where
  | invalidName (file : String)
  | exec (file : String) (sql : String)
  | rollback (file : String)
  | commit (file : String)
  | record (file : String) (ok : Bool)
deriving DecidableEq, Repr

/-- Reads the metadata from migrations_metadata table and returns the last executed script
name; `none` stands for the termination of the process by `log.Fatal`. -/
def readMetadata (env : Env) (db : DB) : Option String :=
  if !env.createOk then none
  else if !env.getOk then some ""
  else
    match db.metadata.getLast? with
    | none => some ""
    | some lastScriptName => some lastScriptName

/-- Writes a new row in the migrations_metadata table; returns the database and whether the
insert succeeded. -/
def writeMetadata (env : Env) (db : DB) (scriptName : String) : DB × Bool :=
  if env.insertOk db scriptName then
    ({ db with metadata := db.metadata ++ [scriptName] }, true)
  else (db, false)

/-- The variables of the loop of `MigrateDB`, with the trace of the calls made so far. -/
structure LoopState where
  db : DB
  lastCompleted : String
  completedCount : Nat
  trace : List Event
deriving DecidableEq, Repr

/-- How one iteration of the loop ends. -/
inductive Step where
  | next (s : LoopState)
  | brk (s : LoopState)

/-- The body of the loop `for _, file := range files`. -/
def loopBody (env : Env) (lastScriptName : String) (s : LoopState) (file : String) : Step :=
  if !checkFileNameFormat file then
    .brk { s with trace := s.trace ++ [.invalidName file] }
  else if lastScriptName == "" || stringsCompare file lastScriptName > 0 then
    let sqlQueries := (env.readFile file).getD ""
    let tx := s.db.begin
    match tx.exec env sqlQueries with
    | none =>
      .brk { s with db := tx.rollback,
                    trace := s.trace ++ [.exec file sqlQueries, .rollback file] }
    | some tx1 =>
      let w := writeMetadata env tx1.commit file
      .next { db := w.1, lastCompleted := file, completedCount := s.completedCount + 1,
              trace := s.trace ++ [.exec file sqlQueries, .commit file, .record file w.2] }
  else .next s

/-- The loop over the sorted files. -/
def runLoop (env : Env) (lastScriptName : String) : List String → LoopState → LoopState
  | [], s => s
  | file :: rest, s =>
    match loopBody env lastScriptName s file with
    | .next s1 => runLoop env lastScriptName rest s1
    | .brk s1 => s1

/-- How a call of `MigrateDB` ends. -/
inductive Status where
  | globError
  | fatal
  | done
deriving DecidableEq, Repr

/-- The outcome of a call of `MigrateDB`. -/
structure Outcome extends LoopState where
  status : Status
deriving DecidableEq, Repr

/-- The loop variables before the first iteration. -/
def initState (db : DB) : LoopState :=
  { db := db, lastCompleted := "", completedCount := 0, trace := [] }

/-- Finds the last run migration, and runs all those after it in order. -/
def MigrateDB (env : Env) (db : DB) : Outcome :=
  match env.glob with
  | none => { initState db with status := .globError }
  | some files =>
    let files := sortStrings files
    match readMetadata env db with
    | none => { initState db with status := .fatal }
    | some lastScriptName =>
      { runLoop env lastScriptName files (initState db) with status := .done }

/-- The final log line. -/
inductive Report where
  | completed (count : Nat) (last : String)
  | noMigrations
deriving DecidableEq, Repr

/-- The final log line of a call that reached it. -/
def Outcome.report (r : Outcome) : Option Report :=
  match r.status with
  | .done =>
    if r.completedCount > 0 then some (.completed r.completedCount r.lastCompleted)
    else some .noMigrations
  | _ => none

/-! ## Reading the trace -/

/-- Files whose contents were passed to `tx.Exec`. -/
def executed (t : List Event) : List String :=
  t.filterMap fun e => match e with
    | .exec f _ => some f
    | _ => none

/-- Files whose transaction was committed. -/
def committed (t : List Event) : List String :=
  t.filterMap fun e => match e with
    | .commit f => some f
    | _ => none

/-- Files whose transaction was rolled back. -/
def rolledBack (t : List Event) : List String :=
  t.filterMap fun e => match e with
    | .rollback f => some f
    | _ => none

/-- The calls of `writeMetadata` with their results. -/
def writes (t : List Event) : List (String × Bool) :=
  t.filterMap fun e => match e with
    | .record f ok => some (f, ok)
    | _ => none

/-- Files for which a metadata row was inserted. -/
def recorded (t : List Event) : List String :=
  ((writes t).filter fun w => w.2).map fun w => w.1

/-- The eligibility test of the loop. -/
def eligible (lastScriptName file : String) : Bool :=
  lastScriptName == "" || stringsCompare file lastScriptName > 0

/-! ## Auxiliary definitions for the statements -/

/-- The statement batch the loop executes for a file: `string(content)` after
`content, _ := os.ReadFile(file)`. -/
def fileContent (env : Env) (file : String) : String := (env.readFile file).getD ""

/-- The file an event is about. -/
def Event.file : Event → String
  | .invalidName f => f
  | .exec f _ => f
  | .rollback f => f
  | .commit f => f
  | .record f _ => f

/-- The loop variables at the end of an iteration. -/
def Step.state : Step → LoopState
  | .next s => s
  | .brk s => s

/-- The loop variables on arrival after the given files, `none` when the loop was left
by `break` among them. -/
def reach (env : Env) (lastScriptName : String) : List String → LoopState → Option LoopState
  | [], s => some s
  | file :: rest, s =>
    match loopBody env lastScriptName s file with
    | .next s1 => reach env lastScriptName rest s1
    | .brk _ => none

/-- The loop variables agree with the trace: what the database holds beyond the initial
database `db0`, the counter and the remembered file are those of the logged calls. -/
def Bookkeeping (env : Env) (db0 : DB) (s : LoopState) : Prop :=
  s.db.metadata = db0.metadata ++ recorded s.trace ∧
  s.db.schema = db0.schema ++ (committed s.trace).map (fileContent env) ∧
  s.completedCount = (committed s.trace).length ∧
  s.lastCompleted = (committed s.trace).getLast?.getD "" ∧
  (writes s.trace).map Prod.fst = committed s.trace

/-- The numeric value of a string of decimal digits. -/
def decimalValue (ds : List Char) : Nat :=
  ds.foldl (fun n c => 10 * n + (c.toNat - 48)) 0

/-- The validator as the specification words it: the whole name is `scripts/`, exactly 20
digits, `_`, one or more non-whitespace characters, and `.sql`. -/
def isValidNameSpec (f : String) : Prop :=
  ∃ ds name : String, f = "scripts/" ++ ds ++ "_" ++ name ++ ".sql" ∧ ds.length = 20 ∧
    (∀ c ∈ ds.toList, isDigit c = true) ∧ name ≠ "" ∧ (∀ c ∈ name.toList, isNonSpace c = true)

/-! ## Scenario data -/

/-- Script 1 of the scenarios, as the glob returns it. -/
def script1 : String := "migrations/scripts/00000000000000000001_init.sql"
/-- Script 2 of the scenarios. -/
def script2 : String := "migrations/scripts/00000000000000000002_users.sql"
/-- Script 3 of the scenarios. -/
def script3 : String := "migrations/scripts/00000000000000000003_orders.sql"

/-- An environment in which every call succeeds and each file holds its own name as SQL. -/
def healthyEnv (files : List String) : Env :=
  { glob := some files, createOk := true, getOk := true,
    readFile := fun f => some f,
    execOk := fun _ _ => true, insertOk := fun _ _ => true }

/-- The files of the scenarios in an arbitrary order of discovery. -/
def threeScripts : List String := [script3, script1, script2]

/-- A database to which scripts 1 and 2 have been applied. -/
def dbAfterScript2 : DB :=
  { schema := [script1, script2], metadata := [script1, script2] }

/-- A name without the underscore after the timestamp; it sorts between scripts 1 and 2. -/
def badName : String := "migrations/scripts/00000000000000000002-users.sql"

/-- The files of the scenarios with script 2 replaced by the malformed name. -/
def withBadName : List String := [script3, badName, script1]

/-- A fresh database. -/
def emptyDb : DB := { schema := [], metadata := [] }

/-- The three scripts, of which script 2 holds SQL that the database rejects. -/
def failingEnv : Env :=
  { healthyEnv threeScripts with execOk := fun _ q => q != script2 }

/-- One script, with a database that refuses the metadata insert. -/
def writeFailEnv : Env :=
  { healthyEnv [script1] with insertOk := fun _ _ => false }

/-- The three scripts, with a database that refuses the metadata insert for script 1. -/
def firstWriteFailEnv : Env :=
  { healthyEnv threeScripts with insertOk := fun _ f => f != script1 }

/-- The three scripts, of which script 2 cannot be read. -/
def unreadableEnv : Env :=
  { healthyEnv threeScripts with readFile := fun f => if f == script2 then none else some f }

/-- One script, with the marker query failing. -/
def readFailEnv : Env :=
  { healthyEnv [script1] with getOk := false }

/-- The files of the scenarios in another order of discovery. -/
def threeScriptsAgain : List String := [script1, script2, script3]

/-- The three scripts, with the metadata insert refused for script 1 and script 2 holding SQL
that the database rejects. -/
def writeThenExecFailEnv : Env :=
  { healthyEnv threeScripts with
    execOk := fun _ q => q != script2, insertOk := fun _ f => f != script1 }

/-- One script that cannot be read, with a database that refuses the metadata insert. -/
def unreadableWriteFailEnv : Env :=
  { healthyEnv [script1] with readFile := fun _ => none, insertOk := fun _ _ => false }

/-- The three scripts, of which scripts 2 and 3 depend on script 1: their SQL is accepted
only by a database in which the batch of script 1 has been committed. -/
def dependentEnv : Env :=
  { healthyEnv threeScripts with
    execOk := fun d q => q == script1 || decide (script1 ∈ d.schema) }

/-! ## String order -/

theorem lessString_iff (a b : String) : lessString a b = true ↔ a < b := by
  simp [lessString, String.lt_iff_toList_lt]

theorem lessString_eq_false_iff (a b : String) : lessString a b = false ↔ b ≤ a := by
  rw [← not_lt, ← lessString_iff]
  simp

theorem stringsCompare_pos_iff (a b : String) : stringsCompare a b > 0 ↔ b < a := by
  unfold stringsCompare
  by_cases h : a = b
  · subst h
    simp
  · have hbeq : (a == b) = false := by simpa using h
    rw [hbeq]
    by_cases h2 : lessString a b = true
    · have hlt : a < b := (lessString_iff a b).1 h2
      rw [h2]
      constructor
      · intro h0
        simp at h0
      · intro h0
        exact absurd h0 (not_lt.2 (le_of_lt hlt))
    · have hnlt : ¬ a < b := fun hlt => h2 ((lessString_iff a b).2 hlt)
      have hlt : b < a := lt_of_le_of_ne (not_lt.1 hnlt) (Ne.symm h)
      have h3 : lessString a b = false := by simpa using h2
      rw [h3]
      constructor
      · intro _
        exact hlt
      · intro _
        simp

theorem eligible_iff (last file : String) :
    eligible last file = true ↔ last = "" ∨ last < file := by
  simp [eligible, stringsCompare_pos_iff]

theorem sortStrings_sorted (l : List String) : (sortStrings l).Sorted (· ≤ ·) := by
  have h : (fun a b : String => lessString b a = false) = (fun a b => a ≤ b) := by
    funext a b
    exact propext (lessString_eq_false_iff b a)
  have hs := List.sorted_insertionSort (fun a b : String => a ≤ b) l
  unfold sortStrings
  convert hs using 2

theorem sortStrings_perm (l : List String) : (sortStrings l).Perm l :=
  List.perm_insertionSort _ l

/-! ## Decimal prefixes -/

theorem foldl_decimal (ds : List Char) (acc : Nat) :
    ds.foldl (fun n c => 10 * n + (c.toNat - 48)) acc
      = acc * 10 ^ ds.length + decimalValue ds := by
  induction ds generalizing acc with
  | nil => simp [decimalValue]
  | cons c ds ih =>
    simp only [List.foldl_cons, List.length_cons, decimalValue]
    rw [ih, ih (10 * 0 + (c.toNat - 48))]
    ring

theorem decimalValue_cons (c : Char) (ds : List Char) :
    decimalValue (c :: ds) = (c.toNat - 48) * 10 ^ ds.length + decimalValue ds := by
  have h := foldl_decimal ds (10 * 0 + (c.toNat - 48))
  simp only [decimalValue, List.foldl_cons] at h ⊢
  rw [h]
  ring

theorem decimalValue_lt (ds : List Char) (h : ∀ c ∈ ds, isDigit c = true) :
    decimalValue ds < 10 ^ ds.length := by
  induction ds with
  | nil => simp [decimalValue]
  | cons c ds ih =>
    have hc : isDigit c = true := h c (List.mem_cons_self _ _)
    have ih1 := ih (fun x hx => h x (List.mem_cons_of_mem _ hx))
    simp only [isDigit, Bool.and_eq_true, decide_eq_true_eq] at hc
    rw [decimalValue_cons, List.length_cons, pow_succ]
    have h9 : c.toNat - 48 ≤ 9 := by omega
    nlinarith [Nat.mul_le_mul_right (10 ^ ds.length) h9]

theorem char_lt_iff_toNat (a b : Char) : a < b ↔ a.toNat < b.toNat := Iff.rfl

theorem char_eq_of_toNat (a b : Char) (h : a.toNat = b.toNat) : a = b := by
  apply Char.ext
  exact UInt32.ext h

theorem lex_digits_iff (xs ys r1 r2 : List Char) (hlen : xs.length = ys.length)
    (hx : ∀ c ∈ xs, isDigit c = true) (hy : ∀ c ∈ ys, isDigit c = true) (hne : xs ≠ ys) :
    (xs ++ r1 < ys ++ r2 ↔ decimalValue xs < decimalValue ys) := by
  induction xs generalizing ys with
  | nil =>
    cases ys with
    | nil => exact absurd rfl hne
    | cons y ys => simp at hlen
  | cons x xs ih =>
    cases ys with
    | nil => simp at hlen
    | cons y ys =>
      have hlen1 : xs.length = ys.length := by simpa using hlen
      have hxd := hx x (List.mem_cons_self _ _)
      have hyd := hy y (List.mem_cons_self _ _)
      have hxs := decimalValue_lt xs (fun c hc => hx c (List.mem_cons_of_mem _ hc))
      have hys := decimalValue_lt ys (fun c hc => hy c (List.mem_cons_of_mem _ hc))
      simp only [isDigit, Bool.and_eq_true, decide_eq_true_eq] at hxd hyd
      rw [decimalValue_cons, decimalValue_cons, ← hlen1]
      rw [← hlen1] at hys
      rcases lt_trichotomy x.toNat y.toNat with hlt | heq | hgt
      · have h1 : x :: xs ++ r1 < y :: ys ++ r2 :=
          List.Lex.rel ((char_lt_iff_toNat x y).2 hlt)
        have h2 : (x.toNat - 48 + 1) * 10 ^ xs.length ≤ (y.toNat - 48) * 10 ^ xs.length :=
          Nat.mul_le_mul_right _ (by omega)
        constructor
        · intro _
          nlinarith
        · intro _
          exact h1
      · have hxy : x = y := char_eq_of_toNat x y heq
        subst hxy
        have hne1 : xs ≠ ys := fun h => hne (by rw [h])
        have ih1 := ih ys hlen1 (fun c hc => hx c (List.mem_cons_of_mem _ hc))
          (fun c hc => hy c (List.mem_cons_of_mem _ hc)) hne1
        have hc : (x :: xs ++ r1 < x :: ys ++ r2) ↔ (xs ++ r1 < ys ++ r2) :=
          List.Lex.cons_iff
        rw [hc, ih1]
        omega
      · have h1 : y :: ys ++ r2 < x :: xs ++ r1 :=
          List.Lex.rel ((char_lt_iff_toNat y x).2 hgt)
        have h2 : (y.toNat - 48 + 1) * 10 ^ xs.length ≤ (x.toNat - 48) * 10 ^ xs.length :=
          Nat.mul_le_mul_right _ (by omega)
        constructor
        · intro h0
          exact absurd h0 (lt_asymm h1)
        · intro h0
          nlinarith

theorem lex_append_left_iff (p a b : List Char) : (p ++ a < p ++ b) ↔ a < b := by
  induction p with
  | nil => simp
  | cons c p ih =>
    have hc : (c :: (p ++ a) < c :: (p ++ b)) ↔ (p ++ a < p ++ b) := List.Lex.cons_iff
    simpa [ih] using hc

theorem path_lt_iff (dir d1 d2 r1 r2 : String) (h1 : d1.length = 20) (h2 : d2.length = 20)
    (hd1 : ∀ c ∈ d1.toList, isDigit c = true) (hd2 : ∀ c ∈ d2.toList, isDigit c = true)
    (hne : d1 ≠ d2) :
    dir ++ d1 ++ r1 < dir ++ d2 ++ r2 ↔ decimalValue d1.toList < decimalValue d2.toList := by
  rw [String.lt_iff_toList_lt]
  have e1 : (dir ++ d1 ++ r1).toList = dir.toList ++ (d1.toList ++ r1.toList) := by
    simp [String.toList, String.data_append]
  have e2 : (dir ++ d2 ++ r2).toList = dir.toList ++ (d2.toList ++ r2.toList) := by
    simp [String.toList, String.data_append]
  rw [e1, e2, lex_append_left_iff]
  apply lex_digits_iff
  · have a1 : d1.toList.length = 20 := h1
    have a2 : d2.toList.length = 20 := h2
    rw [a1, a2]
  · exact hd1
  · exact hd2
  · intro h
    exact hne (String.toList_inj.1 h)

/-! ## What the regular expression matches -/

theorem mem_rem_cls (p : Char → Bool) (s t : List Char) :
    t ∈ (Re.cls p).rem s ↔ ∃ c, s = c :: t ∧ p c = true := by
  cases s with
  | nil => simp [Re.rem]
  | cons x s =>
    by_cases hx : p x = true
    · simp only [Re.rem, hx, if_true, List.mem_singleton]
      constructor
      · intro h
        exact ⟨x, by rw [h], hx⟩
      · rintro ⟨c, hc, _⟩
        exact (List.cons.inj hc).2.symm
    · simp only [Re.rem, hx, Bool.false_eq_true, if_false, List.not_mem_nil, false_iff]
      rintro ⟨c, hc, hpc⟩
      rw [(List.cons.inj hc).1] at hx
      exact hx hpc

theorem mem_rem_cat (a b : Re) (s t : List Char) :
    t ∈ (Re.cat a b).rem s ↔ ∃ u, u ∈ a.rem s ∧ t ∈ b.rem u := by
  simp [Re.rem, List.mem_flatMap]

theorem mem_rem_litChars (cs s t : List Char) :
    t ∈ (cs.foldr (fun c r => Re.cat (Re.cls (fun x => x == c)) r) Re.eps).rem s
      ↔ s = cs ++ t := by
  induction cs generalizing s with
  | nil =>
    simp only [List.foldr_nil, Re.rem, List.mem_singleton, List.nil_append]
    exact eq_comm
  | cons c cs ih =>
    rw [List.foldr_cons, mem_rem_cat]
    constructor
    · rintro ⟨u, hu, ht⟩
      obtain ⟨x, hs, hx⟩ := (mem_rem_cls _ s u).1 hu
      have hxc : x = c := by simpa using hx
      rw [hs, hxc, (ih u).1 ht]
      rfl
    · intro hs
      refine ⟨cs ++ t, (mem_rem_cls _ s _).2 ⟨c, ?_, by simp⟩, (ih _).2 rfl⟩
      rw [hs]
      rfl

theorem mem_rem_lit (str : String) (s t : List Char) :
    t ∈ (Re.lit str).rem s ↔ s = str.toList ++ t :=
  mem_rem_litChars str.toList s t

theorem mem_repeatRem_cls (p : Char → Bool) (n : Nat) (s t : List Char) :
    t ∈ repeatRem (Re.cls p).rem n s
      ↔ ∃ m, m.length = n ∧ (∀ c ∈ m, p c = true) ∧ s = m ++ t := by
  induction n generalizing s with
  | zero =>
    simp only [repeatRem, List.mem_singleton]
    constructor
    · intro h
      exact ⟨[], rfl, by simp, by simp [h]⟩
    · rintro ⟨m, hm, _, hs⟩
      have hnil : m = [] := List.length_eq_zero.1 hm
      rw [hs, hnil]
      rfl
  | succ n ih =>
    simp only [repeatRem, List.mem_flatMap]
    constructor
    · rintro ⟨u, hu, ht⟩
      obtain ⟨c, hs, hc⟩ := (mem_rem_cls p s u).1 hu
      obtain ⟨m, hm, hall, hum⟩ := (ih u).1 ht
      refine ⟨c :: m, by simp [hm], ?_, by rw [hs, hum]; rfl⟩
      intro x hx
      rcases List.mem_cons.1 hx with h | h
      · rw [h]
        exact hc
      · exact hall x h
    · rintro ⟨m, hm, hall, hs⟩
      cases m with
      | nil => simp at hm
      | cons c m =>
        refine ⟨m ++ t, (mem_rem_cls p s _).2 ⟨c, by rw [hs]; rfl,
          hall c (List.mem_cons_self _ _)⟩, ?_⟩
        exact (ih _).2 ⟨m, by simpa using hm,
          fun x hx => hall x (List.mem_cons_of_mem _ hx), rfl⟩

theorem mem_plusRem_cls (p : Char → Bool) (fuel : Nat) (s t : List Char) :
    t ∈ plusRem (Re.cls p).rem fuel s
      ↔ ∃ m, m ≠ [] ∧ m.length ≤ fuel ∧ (∀ c ∈ m, p c = true) ∧ s = m ++ t := by
  induction fuel generalizing s with
  | zero =>
    simp only [plusRem, List.not_mem_nil, false_iff]
    rintro ⟨m, hne, hlen, _, _⟩
    exact hne (List.length_eq_zero.1 (Nat.le_zero.1 hlen))
  | succ fuel ih =>
    simp only [plusRem, List.mem_flatMap, List.mem_cons]
    constructor
    · rintro ⟨u, hu, ht⟩
      obtain ⟨c, hs, hc⟩ := (mem_rem_cls p s u).1 hu
      rcases ht with ht | ht
      · refine ⟨[c], by simp, by simp, ?_, by rw [hs, ht]; rfl⟩
        intro x hx
        rw [List.mem_singleton.1 hx]
        exact hc
      · obtain ⟨m, _, hlen, hall, hum⟩ := (ih u).1 ht
        refine ⟨c :: m, by simp, by simpa using hlen, ?_, by rw [hs, hum]; rfl⟩
        intro x hx
        rcases List.mem_cons.1 hx with h | h
        · rw [h]
          exact hc
        · exact hall x h
    · rintro ⟨m, hne, hlen, hall, hs⟩
      cases m with
      | nil => exact absurd rfl hne
      | cons c m =>
        refine ⟨m ++ t, (mem_rem_cls p s _).2 ⟨c, by rw [hs]; rfl,
          hall c (List.mem_cons_self _ _)⟩, ?_⟩
        cases m with
        | nil => exact Or.inl rfl
        | cons d m =>
          right
          exact (ih _).2 ⟨d :: m, by simp, by simpa using hlen,
            fun x hx => hall x (List.mem_cons_of_mem _ hx), rfl⟩

theorem mem_rem_plus_cls (p : Char → Bool) (s t : List Char) :
    t ∈ (Re.plus (Re.cls p)).rem s
      ↔ ∃ m, m ≠ [] ∧ (∀ c ∈ m, p c = true) ∧ s = m ++ t := by
  have h := mem_plusRem_cls p s.length s t
  have e : (Re.plus (Re.cls p)).rem s = plusRem (Re.cls p).rem s.length s := rfl
  rw [e, h]
  constructor
  · rintro ⟨m, hne, _, hall, hs⟩
    exact ⟨m, hne, hall, hs⟩
  · rintro ⟨m, hne, hall, hs⟩
    refine ⟨m, hne, ?_, hall, hs⟩
    rw [hs]
    simp

/-- The remainders left by `fileNameRegex`, spelled out. -/
theorem mem_rem_fileNameRegex (s t : List Char) :
    t ∈ fileNameRegex.rem s ↔
      ∃ ds name c, ds.length = 20 ∧ (∀ d ∈ ds, isDigit d = true) ∧ name ≠ [] ∧
        (∀ x ∈ name, isNonSpace x = true) ∧ isAnyButNewline c = true ∧
        s = "scripts/".toList ++ (ds ++ ("_".toList ++ (name ++ (c :: ("sql".toList ++ t))))) := by
  unfold fileNameRegex
  constructor
  · intro h
    obtain ⟨u1, h1, h⟩ := (mem_rem_cat _ _ _ _).1 h
    obtain ⟨u2, h2, h⟩ := (mem_rem_cat _ _ _ _).1 h
    obtain ⟨u3, h3, h⟩ := (mem_rem_cat _ _ _ _).1 h
    obtain ⟨u4, h4, h⟩ := (mem_rem_cat _ _ _ _).1 h
    obtain ⟨u5, h5, h6⟩ := (mem_rem_cat _ _ _ _).1 h
    have e1 := (mem_rem_lit _ _ _).1 h1
    obtain ⟨ds, hds, hdall, e2⟩ := (mem_repeatRem_cls _ _ _ _).1 h2
    have e3 := (mem_rem_lit _ _ _).1 h3
    obtain ⟨name, hne, hnall, e4⟩ := (mem_rem_plus_cls _ _ _).1 h4
    obtain ⟨c, e5, hc⟩ := (mem_rem_cls _ _ _).1 h5
    have e6 := (mem_rem_lit _ _ _).1 h6
    refine ⟨ds, name, c, hds, hdall, hne, hnall, hc, ?_⟩
    rw [e1, e2, e3, e4, e5, e6]
  · rintro ⟨ds, name, c, hds, hdall, hne, hnall, hc, hs⟩
    refine (mem_rem_cat _ _ _ _).2 ⟨_, (mem_rem_lit _ _ _).2 hs, ?_⟩
    refine (mem_rem_cat _ _ _ _).2 ⟨_, (mem_repeatRem_cls _ _ _ _).2 ⟨ds, hds, hdall, rfl⟩, ?_⟩
    refine (mem_rem_cat _ _ _ _).2 ⟨_, (mem_rem_lit _ _ _).2 rfl, ?_⟩
    refine (mem_rem_cat _ _ _ _).2 ⟨_, (mem_rem_plus_cls _ _ _).2 ⟨name, hne, hnall, rfl⟩, ?_⟩
    exact (mem_rem_cat _ _ _ _).2 ⟨_, (mem_rem_cls _ _ _).2 ⟨c, rfl, hc⟩,
      (mem_rem_lit _ _ _).2 rfl⟩

/-- The exact language of `checkFileNameFormat`. -/
theorem checkFileNameFormat_iff (f : String) :
    checkFileNameFormat f = true ↔
      ∃ pre ds name c post, ds.length = 20 ∧ (∀ d ∈ ds, isDigit d = true) ∧ name ≠ [] ∧
        (∀ x ∈ name, isNonSpace x = true) ∧ isAnyButNewline c = true ∧
        f.toList = pre ++ ("scripts/".toList ++
          (ds ++ ("_".toList ++ (name ++ (c :: ("sql".toList ++ post)))))) := by
  unfold checkFileNameFormat MatchString
  rw [List.any_eq_true]
  constructor
  · rintro ⟨s, hs, hne⟩
    obtain ⟨pre, hpre⟩ := (List.mem_tails _ _).1 hs
    cases hr : fileNameRegex.rem s with
    | nil => simp [hr] at hne
    | cons post rest =>
      have hmem : post ∈ fileNameRegex.rem s := by
        rw [hr]
        exact List.mem_cons_self _ _
      obtain ⟨ds, name, c, h1, h2, h3, h4, h5, h6⟩ := (mem_rem_fileNameRegex s post).1 hmem
      exact ⟨pre, ds, name, c, post, h1, h2, h3, h4, h5, by rw [← hpre, h6]⟩
  · rintro ⟨pre, ds, name, c, post, h1, h2, h3, h4, h5, h6⟩
    refine ⟨_, (List.mem_tails _ _).2 ⟨pre, h6.symm⟩, ?_⟩
    have hmem := (mem_rem_fileNameRegex _ post).2 ⟨ds, name, c, h1, h2, h3, h4, h5, rfl⟩
    cases hr : fileNameRegex.rem ("scripts/".toList ++
        (ds ++ ("_".toList ++ (name ++ (c :: ("sql".toList ++ post)))))) with
    | nil =>
      rw [hr] at hmem
      exact absurd hmem (List.not_mem_nil _)
    | cons a b => rfl

theorem toList_append (a b : String) : (a ++ b).toList = a.toList ++ b.toList :=
  String.data_append a b

theorem mk_append (a b : List Char) : String.mk (a ++ b) = String.mk a ++ String.mk b := rfl

/-! ## One iteration of the loop -/

theorem loopBody_invalid (env : Env) (S : String) (s : LoopState) (f : String)
    (hv : checkFileNameFormat f = false) :
    loopBody env S s f = .brk { s with trace := s.trace ++ [.invalidName f] } := by
  simp [loopBody, hv]

theorem loopBody_skip (env : Env) (S : String) (s : LoopState) (f : String)
    (hv : checkFileNameFormat f = true) (he : eligible S f = false) :
    loopBody env S s f = .next s := by
  unfold eligible at he
  unfold loopBody
  simp only [hv, he]
  simp

theorem loopBody_fail (env : Env) (S : String) (s : LoopState) (f : String)
    (hv : checkFileNameFormat f = true) (he : eligible S f = true)
    (hx : env.execOk s.db (fileContent env f) = false) :
    loopBody env S s f
      = .brk { s with trace := s.trace ++ [.exec f (fileContent env f), .rollback f] } := by
  unfold eligible at he
  unfold fileContent at hx
  unfold loopBody
  simp only [hv, he]
  simp [Tx.exec, DB.begin, Tx.rollback, hx, fileContent]

theorem loopBody_ok (env : Env) (S : String) (s : LoopState) (f : String)
    (hv : checkFileNameFormat f = true) (he : eligible S f = true)
    (hx : env.execOk s.db (fileContent env f) = true) :
    loopBody env S s f
      = .next { db := (writeMetadata env
                  { s.db with schema := s.db.schema ++ [fileContent env f] } f).1,
                lastCompleted := f,
                completedCount := s.completedCount + 1,
                trace := s.trace ++ [.exec f (fileContent env f), .commit f,
                  .record f (writeMetadata env
                    { s.db with schema := s.db.schema ++ [fileContent env f] } f).2] } := by
  unfold eligible at he
  unfold fileContent at hx
  unfold loopBody
  simp only [hv, he]
  simp [Tx.exec, DB.begin, Tx.commit, hx, fileContent]

theorem loopBody_cases (env : Env) (S : String) (s : LoopState) (f : String) :
    (checkFileNameFormat f = false ∧
      loopBody env S s f = .brk { s with trace := s.trace ++ [.invalidName f] }) ∨
    (checkFileNameFormat f = true ∧ eligible S f = false ∧ loopBody env S s f = .next s) ∨
    (checkFileNameFormat f = true ∧ eligible S f = true ∧
      env.execOk s.db (fileContent env f) = false ∧
      loopBody env S s f
        = .brk { s with trace := s.trace ++ [.exec f (fileContent env f), .rollback f] }) ∨
    (checkFileNameFormat f = true ∧ eligible S f = true ∧
      env.execOk s.db (fileContent env f) = true ∧
      loopBody env S s f
        = .next { db := (writeMetadata env
                    { s.db with schema := s.db.schema ++ [fileContent env f] } f).1,
                  lastCompleted := f,
                  completedCount := s.completedCount + 1,
                  trace := s.trace ++ [.exec f (fileContent env f), .commit f,
                    .record f (writeMetadata env
                      { s.db with schema := s.db.schema ++ [fileContent env f] } f).2] }) := by
  cases hv : checkFileNameFormat f with
  | false => exact Or.inl ⟨rfl, loopBody_invalid env S s f hv⟩
  | true =>
    cases he : eligible S f with
    | false => exact Or.inr (Or.inl ⟨rfl, rfl, loopBody_skip env S s f hv he⟩)
    | true =>
      cases hx : env.execOk s.db (fileContent env f) with
      | false => exact Or.inr (Or.inr (Or.inl ⟨rfl, rfl, rfl, loopBody_fail env S s f hv he hx⟩))
      | true => exact Or.inr (Or.inr (Or.inr ⟨rfl, rfl, rfl, loopBody_ok env S s f hv he hx⟩))

/-! ## Reading a trace that grows -/

theorem executed_append (t u : List Event) : executed (t ++ u) = executed t ++ executed u := by
  simp [executed, List.filterMap_append]

theorem committed_append (t u : List Event) :
    committed (t ++ u) = committed t ++ committed u := by
  simp [committed, List.filterMap_append]

theorem rolledBack_append (t u : List Event) :
    rolledBack (t ++ u) = rolledBack t ++ rolledBack u := by
  simp [rolledBack, List.filterMap_append]

theorem writes_append (t u : List Event) : writes (t ++ u) = writes t ++ writes u := by
  simp [writes, List.filterMap_append]

theorem recorded_append (t u : List Event) : recorded (t ++ u) = recorded t ++ recorded u := by
  simp [recorded, writes_append]

theorem writeMetadata_schema (env : Env) (d : DB) (f : String) :
    (writeMetadata env d f).1.schema = d.schema := by
  unfold writeMetadata
  split <;> rfl

theorem writeMetadata_snd (env : Env) (d : DB) (f : String) :
    (writeMetadata env d f).2 = env.insertOk d f := by
  unfold writeMetadata
  split <;> simp_all

theorem writeMetadata_metadata (env : Env) (d : DB) (f : String) :
    (writeMetadata env d f).1.metadata
      = d.metadata ++ (if env.insertOk d f = true then [f] else []) := by
  unfold writeMetadata
  split <;> simp_all

/-! ## Invariants of the loop -/

theorem runLoop_inv (env : Env) (S : String) (P : LoopState → Prop) (fs : List String)
    (hstep : ∀ s f, f ∈ fs → P s → P (loopBody env S s f).state) :
    ∀ s, P s → P (runLoop env S fs s) := by
  induction fs with
  | nil =>
    intro s hs
    exact hs
  | cons f fs ih =>
    intro s hs
    have h1 := hstep s f (List.mem_cons_self _ _) hs
    have ih1 := ih (fun s g hg => hstep s g (List.mem_cons_of_mem _ hg))
    unfold runLoop
    cases hb : loopBody env S s f with
    | next s1 =>
      rw [hb] at h1
      exact ih1 s1 h1
    | brk s1 =>
      rw [hb] at h1
      exact h1

theorem recorded_chunk (f q : String) (ok : Bool) :
    recorded [Event.exec f q, Event.commit f, Event.record f ok]
      = if ok = true then [f] else [] := by
  cases ok <;> rfl

theorem bookkeeping_step (env : Env) (S : String) (db0 : DB) (s : LoopState) (f : String)
    (h : Bookkeeping env db0 s) : Bookkeeping env db0 (loopBody env S s f).state := by
  obtain ⟨h1, h2, h3, h4, h5⟩ := h
  rcases loopBody_cases env S s f with ⟨_, hb⟩ | ⟨_, _, hb⟩ | ⟨_, _, _, hb⟩ | ⟨_, _, _, hb⟩
  · rw [hb]
    have e1 : recorded [Event.invalidName f] = [] := rfl
    have e2 : committed [Event.invalidName f] = [] := rfl
    have e3 : writes [Event.invalidName f] = [] := rfl
    have e4 : executed [Event.invalidName f] = [] := rfl
    have e5 : rolledBack [Event.invalidName f] = [] := rfl
    simp only [Bookkeeping, Step.state, recorded_append, committed_append, writes_append,
      executed_append, rolledBack_append, e1, e2, e3, e4, e5, List.append_nil]
    exact ⟨h1, h2, h3, h4, h5⟩
  · rw [hb]
    exact ⟨h1, h2, h3, h4, h5⟩
  · rw [hb]
    have e1 : recorded [Event.exec f (fileContent env f), Event.rollback f] = [] := rfl
    have e2 : committed [Event.exec f (fileContent env f), Event.rollback f] = [] := rfl
    have e3 : writes [Event.exec f (fileContent env f), Event.rollback f] = [] := rfl
    have e4 : executed [Event.exec f (fileContent env f), Event.rollback f] = [f] := rfl
    have e5 : rolledBack [Event.exec f (fileContent env f), Event.rollback f] = [f] := rfl
    simp only [Bookkeeping, Step.state, recorded_append, committed_append, writes_append,
      executed_append, rolledBack_append, e1, e2, e3, e4, e5, List.append_nil]
    exact ⟨h1, h2, h3, h4, h5⟩
  · rw [hb]
    have e2 : ∀ ok, committed [Event.exec f (fileContent env f), Event.commit f,
        Event.record f ok] = [f] := fun _ => rfl
    have e3 : ∀ ok, writes [Event.exec f (fileContent env f), Event.commit f,
        Event.record f ok] = [(f, ok)] := fun _ => rfl
    have e4 : ∀ ok, executed [Event.exec f (fileContent env f), Event.commit f,
        Event.record f ok] = [f] := fun _ => rfl
    have e5 : ∀ ok, rolledBack [Event.exec f (fileContent env f), Event.commit f,
        Event.record f ok] = [] := fun _ => rfl
    simp only [Bookkeeping, Step.state, recorded_append, committed_append, writes_append,
      executed_append, rolledBack_append, recorded_chunk, e2, e3, e4, e5, List.append_nil,
      writeMetadata_metadata, writeMetadata_schema, writeMetadata_snd]
    refine ⟨?_, ?_, ?_, ?_, ?_⟩
    · rw [h1, List.append_assoc]
    · rw [h2]
      simp
    · rw [h3]
      simp
    · simp
    · rw [List.map_append, h5]
      rfl

theorem bookkeeping_init (env : Env) (db : DB) : Bookkeeping env db (initState db) := by
  simp [Bookkeeping, initState, recorded, committed, writes, executed, rolledBack]

theorem runLoop_bookkeeping (env : Env) (S : String) (db0 : DB) (fs : List String)
    (s : LoopState) (h : Bookkeeping env db0 s) : Bookkeeping env db0 (runLoop env S fs s) :=
  runLoop_inv env S (Bookkeeping env db0) fs
    (fun s f _ hs => bookkeeping_step env S db0 s f hs) s h

theorem step_trace (env : Env) (S : String) (s : LoopState) (f : String) :
    ∃ evs, (loopBody env S s f).state.trace = s.trace ++ evs ∧
      (∀ e ∈ evs, e.file = f) ∧
      (∀ g ∈ executed evs, g = f ∧ eligible S f = true ∧ checkFileNameFormat f = true) ∧
      (∀ g ∈ committed evs, g ∈ executed evs) ∧
      (∀ g ∈ rolledBack evs, g ∈ executed evs) := by
  rcases loopBody_cases env S s f with ⟨_, hb⟩ | ⟨_, _, hb⟩ | ⟨hv, he, _, hb⟩ | ⟨hv, he, _, hb⟩
  · rw [hb]
    refine ⟨[Event.invalidName f], rfl, ?_, ?_, ?_, ?_⟩
    · intro e he
      rw [List.mem_singleton.1 he]
      rfl
    · intro g hg
      simp [executed] at hg
    · intro g hg
      simp [committed] at hg
    · intro g hg
      simp [rolledBack] at hg
  · rw [hb]
    refine ⟨[], by simp [Step.state], ?_, ?_, ?_, ?_⟩
    · intro e he
      simp at he
    · intro g hg
      simp [executed] at hg
    · intro g hg
      simp [committed] at hg
    · intro g hg
      simp [rolledBack] at hg
  · rw [hb]
    refine ⟨[Event.exec f (fileContent env f), Event.rollback f], rfl, ?_, ?_, ?_, ?_⟩
    · intro e he
      simp only [List.mem_cons, List.mem_singleton, List.not_mem_nil, or_false] at he
      rcases he with h | h <;> rw [h] <;> rfl
    · intro g hg
      have hg1 : g = f := by simpa [executed] using hg
      exact ⟨hg1, he, hv⟩
    · intro g hg
      simp [committed] at hg
    · intro g hg
      have hg1 : g = f := by simpa [rolledBack] using hg
      rw [hg1]
      simp [executed]
  · rw [hb]
    refine ⟨_, rfl, ?_, ?_, ?_, ?_⟩
    · intro e he
      simp only [List.mem_cons, List.mem_singleton, List.not_mem_nil, or_false] at he
      rcases he with h | h | h <;> rw [h] <;> rfl
    · intro g hg
      have hg1 : g = f := by simpa [executed] using hg
      exact ⟨hg1, he, hv⟩
    · intro g hg
      have hg1 : g = f := by simpa [committed] using hg
      rw [hg1]
      simp [executed]
    · intro g hg
      simp [rolledBack] at hg

theorem runLoop_event_mem (env : Env) (S : String) (fs : List String) (s : LoopState) :
    ∀ e ∈ (runLoop env S fs s).trace, e ∈ s.trace ∨ e.file ∈ fs := by
  refine runLoop_inv env S (fun s1 => ∀ e ∈ s1.trace, e ∈ s.trace ∨ e.file ∈ fs) fs ?_ s
    (fun e he => Or.inl he)
  intro s1 f hf h1 e he
  obtain ⟨evs, htr, hfile, _, _, _⟩ := step_trace env S s1 f
  rw [htr] at he
  rcases List.mem_append.1 he with h | h
  · exact h1 e h
  · right
    rw [hfile e h]
    exact hf

theorem runLoop_executed_mem (env : Env) (S : String) (fs : List String) (s : LoopState) :
    ∀ g ∈ executed (runLoop env S fs s).trace,
      g ∈ executed s.trace ∨ (g ∈ fs ∧ eligible S g = true ∧ checkFileNameFormat g = true) := by
  refine runLoop_inv env S (fun s1 => ∀ g ∈ executed s1.trace,
    g ∈ executed s.trace ∨ (g ∈ fs ∧ eligible S g = true ∧ checkFileNameFormat g = true)) fs ?_ s
    (fun g hg => Or.inl hg)
  intro s1 f hf h1 g hg
  obtain ⟨evs, htr, _, hex, _, _⟩ := step_trace env S s1 f
  rw [htr, executed_append] at hg
  rcases List.mem_append.1 hg with h | h
  · exact h1 g h
  · obtain ⟨hgf, he, hv⟩ := hex g h
    right
    rw [hgf]
    exact ⟨hf, he, hv⟩

theorem runLoop_committed_executed (env : Env) (S : String) (fs : List String) (s : LoopState)
    (h0 : ∀ g ∈ committed s.trace, g ∈ executed s.trace) :
    ∀ g ∈ committed (runLoop env S fs s).trace, g ∈ executed (runLoop env S fs s).trace := by
  refine runLoop_inv env S (fun s1 => ∀ g ∈ committed s1.trace, g ∈ executed s1.trace) fs ?_ s h0
  intro s1 f _ h1 g hg
  obtain ⟨evs, htr, _, _, hce, _⟩ := step_trace env S s1 f
  rw [htr, committed_append] at hg
  rw [htr, executed_append]
  rcases List.mem_append.1 hg with h | h
  · exact List.mem_append_left _ (h1 g h)
  · exact List.mem_append_right _ (hce g h)

theorem runLoop_rolledBack_executed (env : Env) (S : String) (fs : List String)
    (s : LoopState) (h0 : ∀ g ∈ rolledBack s.trace, g ∈ executed s.trace) :
    ∀ g ∈ rolledBack (runLoop env S fs s).trace, g ∈ executed (runLoop env S fs s).trace := by
  refine runLoop_inv env S (fun s1 => ∀ g ∈ rolledBack s1.trace, g ∈ executed s1.trace) fs ?_ s
    h0
  intro s1 f _ h1 g hg
  obtain ⟨evs, htr, _, _, _, hre⟩ := step_trace env S s1 f
  rw [htr, rolledBack_append] at hg
  rw [htr, executed_append]
  rcases List.mem_append.1 hg with h | h
  · exact List.mem_append_left _ (h1 g h)
  · exact List.mem_append_right _ (hre g h)

theorem recorded_subset_committed (env : Env) (db0 : DB) (s : LoopState)
    (h : Bookkeeping env db0 s) : ∀ g ∈ recorded s.trace, g ∈ committed s.trace := by
  intro g hg
  rw [← h.2.2.2.2]
  unfold recorded at hg
  obtain ⟨w, hw, hwg⟩ := List.mem_map.1 hg
  exact List.mem_map.2 ⟨w, (List.mem_filter.1 hw).1, hwg⟩

/-! ## The whole call -/

theorem MigrateDB_done (env : Env) (db : DB) (files : List String) (S : String)
    (hg : env.glob = some files) (hr : readMetadata env db = some S) :
    MigrateDB env db
      = { runLoop env S (sortStrings files) (initState db) with status := .done } := by
  simp [MigrateDB, hg, hr]

theorem MigrateDB_cases (env : Env) (db : DB) :
    (MigrateDB env db).toLoopState = initState db ∨
    ∃ files S, env.glob = some files ∧ readMetadata env db = some S ∧
      (MigrateDB env db).status = .done ∧
      (MigrateDB env db).toLoopState = runLoop env S (sortStrings files) (initState db) := by
  cases hg : env.glob with
  | none =>
    left
    simp [MigrateDB, hg]
  | some files =>
    cases hr : readMetadata env db with
    | none =>
      left
      simp [MigrateDB, hg, hr]
    | some S =>
      right
      refine ⟨files, S, rfl, rfl, ?_, ?_⟩ <;> rw [MigrateDB_done env db files S hg hr]

theorem MigrateDB_bookkeeping (env : Env) (db : DB) :
    Bookkeeping env db (MigrateDB env db).toLoopState := by
  rcases MigrateDB_cases env db with h | ⟨files, S, _, _, _, h⟩
  · rw [h]
    exact bookkeeping_init env db
  · rw [h]
    exact runLoop_bookkeeping env S db _ _ (bookkeeping_init env db)

/-! ## The loop up to a given file -/

theorem runLoop_cons (env : Env) (S : String) (f : String) (rest : List String)
    (s : LoopState) :
    runLoop env S (f :: rest) s
      = match loopBody env S s f with
        | .next s1 => runLoop env S rest s1
        | .brk s1 => s1 := rfl

theorem runLoop_of_reach (env : Env) (S : String) (rest : List String) :
    ∀ (pre : List String) (s s1 : LoopState), reach env S pre s = some s1 →
      runLoop env S (pre ++ rest) s = runLoop env S rest s1 := by
  intro pre
  induction pre with
  | nil =>
    intro s s1 h
    simp only [reach, Option.some.injEq] at h
    rw [h]
    rfl
  | cons f pre ih =>
    intro s s1 h
    unfold reach at h
    rw [List.cons_append, runLoop_cons]
    cases hb : loopBody env S s f with
    | next s2 =>
      rw [hb] at h
      exact ih s2 s1 h
    | brk s2 =>
      rw [hb] at h
      exact absurd h (by simp)

theorem runLoop_of_reach_none (env : Env) (S : String) (rest : List String) :
    ∀ (pre : List String) (s : LoopState), reach env S pre s = none →
      runLoop env S (pre ++ rest) s = runLoop env S pre s := by
  intro pre
  induction pre with
  | nil =>
    intro s h
    simp [reach] at h
  | cons f pre ih =>
    intro s h
    unfold reach at h
    rw [List.cons_append, runLoop_cons, runLoop_cons]
    cases hb : loopBody env S s f with
    | next s2 =>
      rw [hb] at h
      exact ih s2 h
    | brk s2 => rfl

theorem reach_eq_runLoop (env : Env) (S : String) (pre : List String) (s s1 : LoopState)
    (h : reach env S pre s = some s1) : runLoop env S pre s = s1 := by
  have h1 := runLoop_of_reach env S [] pre s s1 h
  rw [List.append_nil] at h1
  rw [h1]
  rfl

theorem next_cases (env : Env) (S : String) (s s2 : LoopState) (f : String)
    (hb : loopBody env S s f = .next s2) :
    checkFileNameFormat f = true ∧
    ((eligible S f = false ∧ s2 = s) ∨
     (eligible S f = true ∧ env.execOk s.db (fileContent env f) = true ∧
       s2 = { db := (writeMetadata env
                { s.db with schema := s.db.schema ++ [fileContent env f] } f).1,
              lastCompleted := f,
              completedCount := s.completedCount + 1,
              trace := s.trace ++ [.exec f (fileContent env f), .commit f,
                .record f (writeMetadata env
                  { s.db with schema := s.db.schema ++ [fileContent env f] } f).2] })) := by
  rcases loopBody_cases env S s f with ⟨_, h⟩ | ⟨hv, he, h⟩ | ⟨_, _, _, h⟩ | ⟨hv, he, hx, h⟩
  · rw [h] at hb
    exact absurd hb (by simp)
  · rw [h] at hb
    exact ⟨hv, Or.inl ⟨he, (Step.next.inj hb).symm⟩⟩
  · rw [h] at hb
    exact absurd hb (by simp)
  · rw [h] at hb
    exact ⟨hv, Or.inr ⟨he, hx, (Step.next.inj hb).symm⟩⟩

theorem reach_facts (env : Env) (S : String) :
    ∀ (pre : List String) (s s1 : LoopState), reach env S pre s = some s1 →
      (∀ g ∈ pre, checkFileNameFormat g = true) ∧
      rolledBack s1.trace = rolledBack s.trace ∧
      (∀ g ∈ committed s.trace, g ∈ committed s1.trace) ∧
      (∀ g ∈ pre, eligible S g = true → g ∈ committed s1.trace) := by
  intro pre
  induction pre with
  | nil =>
    intro s s1 h
    simp only [reach, Option.some.injEq] at h
    rw [← h]
    exact ⟨by simp, rfl, fun g hg => hg, by simp⟩
  | cons f pre ih =>
    intro s s1 h
    unfold reach at h
    cases hb : loopBody env S s f with
    | brk s2 =>
      rw [hb] at h
      exact absurd h (by simp)
    | next s2 =>
      rw [hb] at h
      obtain ⟨i1, i2, i3, i4⟩ := ih s2 s1 h
      obtain ⟨hv, hc⟩ := next_cases env S s s2 f hb
      rcases hc with ⟨he, h2⟩ | ⟨he, _, h2⟩
      · subst h2
        refine ⟨?_, i2, i3, ?_⟩
        · intro g hg
          rcases List.mem_cons.1 hg with h0 | h0
          · rw [h0]
            exact hv
          · exact i1 g h0
        · intro g hg hge
          rcases List.mem_cons.1 hg with h0 | h0
          · rw [h0, he] at hge
            exact absurd hge (by decide)
          · exact i4 g h0 hge
      · have hc2 : committed s2.trace = committed s.trace ++ [f] := by
          rw [h2]
          simp only [committed_append]
          rfl
        have hr2 : rolledBack s2.trace = rolledBack s.trace := by
          rw [h2]
          simp only [rolledBack_append]
          have e : ∀ ok, rolledBack [Event.exec f (fileContent env f), Event.commit f,
              Event.record f ok] = [] := fun _ => rfl
          rw [e, List.append_nil]
        refine ⟨?_, ?_, ?_, ?_⟩
        · intro g hg
          rcases List.mem_cons.1 hg with h0 | h0
          · rw [h0]
            exact hv
          · exact i1 g h0
        · rw [i2, hr2]
        · intro g hg
          apply i3
          rw [hc2]
          exact List.mem_append_left _ hg
        · intro g hg hge
          rcases List.mem_cons.1 hg with h0 | h0
          · apply i3
            rw [hc2, h0]
            simp
          · exact i4 g h0 hge

theorem reach_of_event (env : Env) (S : String) (pre rest : List String) (f : String)
    (s : LoopState) (hs : ∀ e ∈ s.trace, e.file ≠ f) (hpre : f ∉ pre)
    (hev : ∃ e ∈ (runLoop env S (pre ++ f :: rest) s).trace, e.file = f) :
    ∃ s1, reach env S pre s = some s1 := by
  cases hr : reach env S pre s with
  | some s1 => exact ⟨s1, rfl⟩
  | none =>
    exfalso
    obtain ⟨e, he, hef⟩ := hev
    rw [runLoop_of_reach_none env S (f :: rest) pre s hr] at he
    rcases runLoop_event_mem env S pre s e he with h | h
    · exact hs e h hef
    · rw [hef] at h
      exact hpre h

theorem sorted_split_eq (pre post : List String) (f g : String)
    (hs : (pre ++ f :: post).Sorted (· ≤ ·)) (h1 : g ∈ pre) (h2 : g ∈ f :: post) : g = f := by
  have hp := List.pairwise_append.1 hs
  have hgf : g ≤ f := hp.2.2 g h1 f (List.mem_cons_self _ _)
  rcases List.mem_cons.1 h2 with h | h
  · exact h
  · have hfg : f ≤ g := (List.pairwise_cons.1 hp.2.1).1 g h
    exact le_antisymm hgf hfg

theorem runLoop_bad_name (env : Env) (S : String) (pre post : List String) (f : String)
    (s : LoopState) (hf : checkFileNameFormat f = false) :
    ∀ g ∈ executed (runLoop env S (pre ++ f :: post) s).trace,
      g ∈ executed s.trace ∨ g ∈ pre := by
  intro g hg
  cases hr : reach env S pre s with
  | some s1 =>
    rw [runLoop_of_reach env S (f :: post) pre s s1 hr, runLoop_cons,
      loopBody_invalid env S s1 f hf] at hg
    have e : executed (s1.trace ++ [Event.invalidName f]) = executed s1.trace := by
      rw [executed_append]
      simp [executed]
    simp only [e] at hg
    rw [← reach_eq_runLoop env S pre s s1 hr] at hg
    rcases runLoop_executed_mem env S pre s g hg with h | ⟨h, _, _⟩
    · exact Or.inl h
    · exact Or.inr h
  | none =>
    rw [runLoop_of_reach_none env S (f :: post) pre s hr] at hg
    rcases runLoop_executed_mem env S pre s g hg with h | ⟨h, _, _⟩
    · exact Or.inl h
    · exact Or.inr h

theorem MigrateDB_committed_executed (env : Env) (db : DB) :
    ∀ f ∈ committed (MigrateDB env db).trace, f ∈ executed (MigrateDB env db).trace := by
  rcases MigrateDB_cases env db with h | ⟨files, S1, _, _, _, h⟩
  · rw [h]
    simp [initState, committed]
  · rw [h]
    exact runLoop_committed_executed env S1 _ _ (by simp [initState, committed])

theorem MigrateDB_recorded_committed (env : Env) (db : DB) :
    ∀ f ∈ recorded (MigrateDB env db).trace, f ∈ committed (MigrateDB env db).trace :=
  recorded_subset_committed env db _ (MigrateDB_bookkeeping env db)

/-! ## Membership in the readings of a trace -/

theorem mem_executed (t : List Event) (f : String) :
    f ∈ executed t ↔ ∃ q, Event.exec f q ∈ t := by
  unfold executed
  rw [List.mem_filterMap]
  constructor
  · rintro ⟨e, he, h⟩
    cases e <;> simp at h
    case exec g q =>
      subst h
      exact ⟨q, he⟩
  · rintro ⟨q, hq⟩
    exact ⟨_, hq, rfl⟩

theorem mem_committed (t : List Event) (f : String) :
    f ∈ committed t ↔ Event.commit f ∈ t := by
  unfold committed
  rw [List.mem_filterMap]
  constructor
  · rintro ⟨e, he, h⟩
    cases e <;> simp at h
    case commit g =>
      subst h
      exact he
  · intro h
    exact ⟨_, h, rfl⟩

theorem mem_rolledBack (t : List Event) (f : String) :
    f ∈ rolledBack t ↔ Event.rollback f ∈ t := by
  unfold rolledBack
  rw [List.mem_filterMap]
  constructor
  · rintro ⟨e, he, h⟩
    cases e <;> simp at h
    case rollback g =>
      subst h
      exact he
  · intro h
    exact ⟨_, h, rfl⟩

theorem mem_writes (t : List Event) (f : String) (ok : Bool) :
    (f, ok) ∈ writes t ↔ Event.record f ok ∈ t := by
  unfold writes
  rw [List.mem_filterMap]
  constructor
  · rintro ⟨e, he, h⟩
    cases e <;> simp at h
    case record g b =>
      obtain ⟨h1, h2⟩ := h
      subst h1
      subst h2
      exact he
  · intro h
    exact ⟨_, h, rfl⟩

theorem mem_recorded (t : List Event) (f : String) :
    f ∈ recorded t ↔ Event.record f true ∈ t := by
  rw [← mem_writes]
  unfold recorded
  rw [List.mem_map]
  constructor
  · rintro ⟨w, hw, hwf⟩
    obtain ⟨h1, h2⟩ := List.mem_filter.1 hw
    have : w = (f, true) := by
      cases w
      simp_all
    rw [← this]
    exact h1
  · intro h
    exact ⟨(f, true), List.mem_filter.2 ⟨h, rfl⟩, rfl⟩

theorem reach_no_event (env : Env) (S : String) (pre : List String) (f : String)
    (s s1 : LoopState) (hr : reach env S pre s = some s1)
    (hs : ∀ e ∈ s.trace, e.file ≠ f) (hpre : f ∉ pre) : ∀ e ∈ s1.trace, e.file ≠ f := by
  intro e he hef
  rw [← reach_eq_runLoop env S pre s s1 hr] at he
  rcases runLoop_event_mem env S pre s e he with h | h
  · exact hs e h hef
  · rw [hef] at h
    exact hpre h

/-- A rolled back file: the loop arrived at it with all earlier files passed, its batch
failed, and the loop ended there. -/
theorem runLoop_fail_split (env : Env) (S : String) (pre post : List String) (f : String)
    (s : LoopState) (hs : ∀ e ∈ s.trace, e.file ≠ f) (hpre : f ∉ pre) (hpost : f ∉ post)
    (hfail : f ∈ rolledBack (runLoop env S (pre ++ f :: post) s).trace) :
    ∃ s1, reach env S pre s = some s1 ∧ checkFileNameFormat f = true ∧
      eligible S f = true ∧ env.execOk s1.db (fileContent env f) = false ∧
      runLoop env S (pre ++ f :: post) s
        = { s1 with trace := s1.trace ++ [.exec f (fileContent env f), .rollback f] } := by
  have hev : ∃ e ∈ (runLoop env S (pre ++ f :: post) s).trace, e.file = f :=
    ⟨Event.rollback f, (mem_rolledBack _ f).1 hfail, rfl⟩
  obtain ⟨s1, hr⟩ := reach_of_event env S pre post f s hs hpre hev
  have hs1 := reach_no_event env S pre f s s1 hr hs hpre
  have hrun := runLoop_of_reach env S (f :: post) pre s s1 hr
  rw [hrun] at hfail
  rw [hrun]
  have hrb := (mem_rolledBack _ f).1 hfail
  rw [runLoop_cons] at hrb ⊢
  rcases loopBody_cases env S s1 f with ⟨_, hb⟩ | ⟨_, _, hb⟩ | ⟨hv, he, hx, hb⟩ | ⟨_, _, _, hb⟩
  · exfalso
    rw [hb] at hrb
    rcases List.mem_append.1 hrb with h | h
    · exact hs1 _ h rfl
    · simp at h
  · exfalso
    rw [hb] at hrb
    rcases runLoop_event_mem env S post s1 _ hrb with h | h
    · exact hs1 _ h rfl
    · exact hpost h
  · rw [hb]
    exact ⟨s1, hr, hv, he, hx, rfl⟩
  · exfalso
    rw [hb] at hrb
    rcases runLoop_event_mem env S post _ _ hrb with h | h
    · rcases List.mem_append.1 h with h1 | h1
      · exact hs1 _ h1 rfl
      · simp at h1
    · exact hpost h

theorem sortStrings_nodup (files : List String) (h : files.Nodup) :
    (sortStrings files).Nodup :=
  (sortStrings_perm files).nodup_iff.2 h

/-! ## Files are handled in order, each at most once -/

theorem runLoop_sublists (env : Env) (S : String) :
    ∀ (fs : List String) (s : LoopState),
      ∃ Le Lc Lr, executed (runLoop env S fs s).trace = executed s.trace ++ Le ∧
        Le.Sublist fs ∧
        committed (runLoop env S fs s).trace = committed s.trace ++ Lc ∧ Lc.Sublist fs ∧
        recorded (runLoop env S fs s).trace = recorded s.trace ++ Lr ∧ Lr.Sublist fs := by
  intro fs
  induction fs with
  | nil =>
    intro s
    exact ⟨[], [], [], by simp [runLoop], List.Sublist.refl _, by simp [runLoop],
      List.Sublist.refl _, by simp [runLoop], List.Sublist.refl _⟩
  | cons f fs ih =>
    intro s
    rw [runLoop_cons]
    rcases loopBody_cases env S s f with ⟨_, hb⟩ | ⟨_, _, hb⟩ | ⟨_, _, _, hb⟩ | ⟨_, _, _, hb⟩
    · rw [hb]
      refine ⟨[], [], [], ?_, List.nil_sublist _, ?_, List.nil_sublist _, ?_,
        List.nil_sublist _⟩
      · simp [executed]
      · simp [committed]
      · simp [recorded, writes]
    · rw [hb]
      obtain ⟨Le, Lc, Lr, h1, h2, h3, h4, h5, h6⟩ := ih s
      exact ⟨Le, Lc, Lr, h1, List.Sublist.cons _ h2, h3, List.Sublist.cons _ h4, h5,
        List.Sublist.cons _ h6⟩
    · rw [hb]
      refine ⟨[f], [], [], ?_, ?_, ?_, List.nil_sublist _, ?_, List.nil_sublist _⟩
      · simp only [executed_append]
        rfl
      · exact List.Sublist.cons₂ _ (List.nil_sublist _)
      · simp [committed]
      · simp [recorded, writes]
    · rw [hb]
      obtain ⟨Le, Lc, Lr, h1, h2, h3, h4, h5, h6⟩ := ih
        { db := (writeMetadata env
            { s.db with schema := s.db.schema ++ [fileContent env f] } f).1,
          lastCompleted := f,
          completedCount := s.completedCount + 1,
          trace := s.trace ++ [.exec f (fileContent env f), .commit f,
            .record f (writeMetadata env
              { s.db with schema := s.db.schema ++ [fileContent env f] } f).2] }
      simp only [executed_append, committed_append, recorded_append, recorded_chunk] at h1 h3 h5
      refine ⟨f :: Le, f :: Lc,
        (if (writeMetadata env { s.db with schema := s.db.schema ++ [fileContent env f] } f).2
            = true then [f] else []) ++ Lr, ?_, List.Sublist.cons₂ _ h2, ?_,
        List.Sublist.cons₂ _ h4, ?_, ?_⟩
      · rw [h1]
        simp [executed]
      · rw [h3]
        simp [committed]
      · rw [h5]
        simp
      · split
        · exact List.Sublist.cons₂ _ h6
        · exact List.Sublist.cons _ h6

theorem MigrateDB_sublists (env : Env) (db : DB) (files : List String)
    (hg : env.glob = some files) :
    (executed (MigrateDB env db).trace).Sublist (sortStrings files) ∧
    (committed (MigrateDB env db).trace).Sublist (sortStrings files) ∧
    (recorded (MigrateDB env db).trace).Sublist (sortStrings files) := by
  rcases MigrateDB_cases env db with h | ⟨files1, S, hg1, _, _, h⟩
  · rw [h]
    simp [initState, executed, committed, recorded, writes]
  · rw [hg] at hg1
    have hff : files = files1 := Option.some.inj hg1
    subst hff
    rw [h]
    obtain ⟨Le, Lc, Lr, h1, h2, h3, h4, h5, h6⟩ :=
      runLoop_sublists env S (sortStrings files) (initState db)
    have e1 : executed (initState db).trace = [] := rfl
    have e2 : committed (initState db).trace = [] := rfl
    have e3 : recorded (initState db).trace = [] := rfl
    rw [e1, List.nil_append] at h1
    rw [e2, List.nil_append] at h3
    rw [e3, List.nil_append] at h5
    rw [h1, h3, h5]
    exact ⟨h2, h4, h6⟩

/-! ## A run in which every call succeeds -/

theorem loopBody_ok_ex (env : Env) (S : String) (s : LoopState) (f : String)
    (hv : checkFileNameFormat f = true) (he : eligible S f = true)
    (hx : env.execOk s.db (fileContent env f) = true) :
    ∃ s2, loopBody env S s f = .next s2 ∧
      s2.trace = s.trace ++ [.exec f (fileContent env f), .commit f,
        .record f (env.insertOk { s.db with schema := s.db.schema ++ [fileContent env f] } f)] ∧
      s2.db.schema = s.db.schema ++ [fileContent env f] ∧
      s2.db.metadata = s.db.metadata ++
        (if env.insertOk { s.db with schema := s.db.schema ++ [fileContent env f] } f = true
          then [f] else []) ∧
      s2.lastCompleted = f ∧ s2.completedCount = s.completedCount + 1 := by
  refine ⟨_, loopBody_ok env S s f hv he hx, ?_, ?_, ?_, rfl, rfl⟩
  · simp only [writeMetadata_snd]
  · simp only [writeMetadata_schema]
  · simp only [writeMetadata_metadata]

theorem runLoop_next (env : Env) (S : String) (f : String) (rest : List String)
    (s s2 : LoopState) (hb : loopBody env S s f = .next s2) :
    runLoop env S (f :: rest) s = runLoop env S rest s2 := by
  rw [runLoop_cons, hb]

theorem runLoop_brk (env : Env) (S : String) (f : String) (rest : List String)
    (s s2 : LoopState) (hb : loopBody env S s f = .brk s2) :
    runLoop env S (f :: rest) s = s2 := by
  rw [runLoop_cons, hb]

theorem runLoop_all_ok (env : Env) (S : String) :
    ∀ (fs : List String) (s : LoopState),
      (∀ f ∈ fs, checkFileNameFormat f = true) → (∀ f ∈ fs, eligible S f = true) →
      (∀ d, ∀ f ∈ fs, env.execOk d (fileContent env f) = true) →
      (∀ d, ∀ f ∈ fs, env.insertOk d f = true) →
      executed (runLoop env S fs s).trace = executed s.trace ++ fs ∧
      committed (runLoop env S fs s).trace = committed s.trace ++ fs ∧
      recorded (runLoop env S fs s).trace = recorded s.trace ++ fs ∧
      rolledBack (runLoop env S fs s).trace = rolledBack s.trace := by
  intro fs
  induction fs with
  | nil =>
    intro s _ _ _ _
    simp [runLoop]
  | cons f fs ih =>
    intro s hv he hx hi
    obtain ⟨s2, hb, htr, _, _, _, _⟩ := loopBody_ok_ex env S s f (hv f (List.mem_cons_self _ _))
      (he f (List.mem_cons_self _ _)) (hx s.db f (List.mem_cons_self _ _))
    rw [runLoop_next env S f fs s s2 hb]
    obtain ⟨h1, h2, h3, h4⟩ := ih s2
      (fun g hg => hv g (List.mem_cons_of_mem _ hg))
      (fun g hg => he g (List.mem_cons_of_mem _ hg))
      (fun d g hg => hx d g (List.mem_cons_of_mem _ hg))
      (fun d g hg => hi d g (List.mem_cons_of_mem _ hg))
    rw [hi _ f (List.mem_cons_self _ _)] at htr
    rw [htr] at h1 h2 h3 h4
    simp only [executed_append, committed_append, recorded_append, rolledBack_append,
      recorded_chunk, if_true] at h1 h2 h3 h4
    refine ⟨?_, ?_, ?_, ?_⟩
    · rw [h1]
      simp [executed]
    · rw [h2]
      simp [committed]
    · rw [h3]
      simp
    · rw [h4]
      simp [rolledBack]

theorem glob_path_valid (f ds name : String)
    (hf : f = "migrations/scripts/" ++ ds ++ "_" ++ name ++ ".sql") (hlen : ds.length = 20)
    (hds : ∀ c ∈ ds.toList, isDigit c = true) (hne : name ≠ "")
    (hname : ∀ c ∈ name.toList, isNonSpace c = true) : checkFileNameFormat f = true := by
  refine (checkFileNameFormat_iff f).2
    ⟨"migrations/".toList, ds.toList, name.toList, '.', [], hlen, hds, ?_, hname, by decide, ?_⟩
  · intro h
    exact hne (String.toList_inj.1 h)
  · rw [hf]
    simp only [toList_append, List.append_assoc]
    rfl

theorem sorted_le_getLast (l : List String) (hs : l.Sorted (· ≤ ·)) (x : String)
    (hx : l.getLast? = some x) : ∀ g ∈ l, g ≤ x := by
  obtain ⟨ys, hys⟩ := List.getLast?_eq_some_iff.1 hx
  intro g hg
  rw [hys] at hs hg
  rcases List.mem_append.1 hg with h | h
  · exact (List.pairwise_append.1 hs).2.2 g h x (List.mem_singleton_self _)
  · rw [List.mem_singleton.1 h]

theorem readMetadata_empty (env : Env) (db : DB) (hc : env.createOk = true)
    (he : db.metadata = []) : readMetadata env db = some "" := by
  unfold readMetadata
  rw [hc, he]
  cases env.getOk <;> rfl

/-! ## A committed file -/

theorem runLoop_trace_mono (env : Env) (S : String) (fs : List String) (s : LoopState) :
    ∀ e ∈ s.trace, e ∈ (runLoop env S fs s).trace := by
  refine runLoop_inv env S (fun s1 => ∀ e ∈ s.trace, e ∈ s1.trace) fs ?_ s (fun e he => he)
  intro s1 f _ h1 e he
  obtain ⟨evs, htr, _, _, _, _⟩ := step_trace env S s1 f
  rw [htr]
  exact List.mem_append_left _ (h1 e he)

/-- A file for which `writeMetadata` was called: the loop arrived at it with all earlier
files passed, its batch was executed and committed, and the loop went on after it. -/
theorem runLoop_write_split (env : Env) (S : String) (pre post : List String) (f : String)
    (s : LoopState) (ok : Bool) (hs : ∀ e ∈ s.trace, e.file ≠ f) (hpre : f ∉ pre)
    (hpost : f ∉ post)
    (hw : Event.record f ok ∈ (runLoop env S (pre ++ f :: post) s).trace) :
    ∃ s1 s2, reach env S pre s = some s1 ∧ checkFileNameFormat f = true ∧
      eligible S f = true ∧ env.execOk s1.db (fileContent env f) = true ∧
      loopBody env S s1 f = .next s2 ∧
      s2.trace = s1.trace ++ [.exec f (fileContent env f), .commit f, .record f ok] ∧
      env.insertOk { s1.db with schema := s1.db.schema ++ [fileContent env f] } f = ok ∧
      s2.db.schema = s1.db.schema ++ [fileContent env f] ∧
      s2.db.metadata = s1.db.metadata ++ (if ok = true then [f] else []) ∧
      s2.lastCompleted = f ∧ s2.completedCount = s1.completedCount + 1 ∧
      runLoop env S (pre ++ f :: post) s = runLoop env S post s2 := by
  obtain ⟨s1, hr⟩ := reach_of_event env S pre post f s hs hpre ⟨_, hw, rfl⟩
  have hs1 := reach_no_event env S pre f s s1 hr hs hpre
  have hrun := runLoop_of_reach env S (f :: post) pre s s1 hr
  rw [hrun] at hw
  rcases loopBody_cases env S s1 f with ⟨_, hb⟩ | ⟨_, _, hb⟩ | ⟨_, _, _, hb⟩ | ⟨hv, he, hx, _⟩
  · exfalso
    rw [runLoop_brk env S f post s1 _ hb] at hw
    rcases List.mem_append.1 hw with h | h
    · exact hs1 _ h rfl
    · simp at h
  · exfalso
    rw [runLoop_next env S f post s1 _ hb] at hw
    rcases runLoop_event_mem env S post s1 _ hw with h | h
    · exact hs1 _ h rfl
    · exact hpost h
  · exfalso
    rw [runLoop_brk env S f post s1 _ hb] at hw
    rcases List.mem_append.1 hw with h | h
    · exact hs1 _ h rfl
    · simp at h
  · obtain ⟨s2, hb, htr, h3, h4, h5, h6⟩ := loopBody_ok_ex env S s1 f hv he hx
    rw [runLoop_next env S f post s1 s2 hb] at hw
    have hok : env.insertOk { s1.db with schema := s1.db.schema ++ [fileContent env f] } f
        = ok := by
      rcases runLoop_event_mem env S post s2 _ hw with h | h
      · rw [htr] at h
        rcases List.mem_append.1 h with h1 | h1
        · exact absurd rfl (hs1 _ h1)
        · simp only [List.mem_cons, List.mem_singleton, List.not_mem_nil, or_false] at h1
          rcases h1 with h2 | h2 | h2
          · exact absurd h2 (by simp)
          · exact absurd h2 (by simp)
          · simp only [Event.record.injEq, true_and] at h2
            exact h2.symm
      · exact absurd h hpost
    rw [hok] at htr h4
    exact ⟨s1, s2, hr, hv, he, hx, hb, htr, hok, h3, h4, h5, h6, by
      rw [hrun, runLoop_next env S f post s1 s2 hb]⟩

theorem eligible_of_lt (S f g : String) (he : eligible S f = true) (hlt : f < g) :
    eligible S g = true := by
  rcases (eligible_iff S f).1 he with h | h
  · exact (eligible_iff S g).2 (Or.inl h)
  · exact (eligible_iff S g).2 (Or.inr (lt_trans h hlt))

theorem reach_none_cause (env : Env) (S : String) :
    ∀ (pre : List String) (s : LoopState), reach env S pre s = none →
      ∃ g ∈ pre, checkFileNameFormat g = false ∨ g ∈ rolledBack (runLoop env S pre s).trace := by
  intro pre
  induction pre with
  | nil =>
    intro s h
    simp [reach] at h
  | cons f pre ih =>
    intro s h
    unfold reach at h
    rcases loopBody_cases env S s f with ⟨hv, _⟩ | ⟨_, _, hb⟩ | ⟨_, _, _, hb⟩ | ⟨_, _, _, hb⟩
    · exact ⟨f, List.mem_cons_self _ _, Or.inl hv⟩
    · rw [hb] at h
      obtain ⟨g, hg, hc⟩ := ih s h
      refine ⟨g, List.mem_cons_of_mem _ hg, ?_⟩
      rw [runLoop_next env S f pre s s hb]
      exact hc
    · refine ⟨f, List.mem_cons_self _ _, Or.inr ?_⟩
      rw [runLoop_brk env S f pre s _ hb, mem_rolledBack]
      simp
    · rw [hb] at h
      obtain ⟨g, hg, hc⟩ := ih _ h
      refine ⟨g, List.mem_cons_of_mem _ hg, ?_⟩
      rw [runLoop_next env S f pre s _ hb]
      exact hc

theorem MigrateDB_executed_eligible (env : Env) (db : DB) (S : String)
    (hS : readMetadata env db = some S) :
    ∀ f ∈ executed (MigrateDB env db).trace, eligible S f = true := by
  intro f hf
  rcases MigrateDB_cases env db with h | ⟨files, S1, _, hr, _, h⟩
  · rw [h] at hf
    simp [initState, executed] at hf
  · rw [hS] at hr
    have hSS : S = S1 := Option.some.inj hr
    subst hSS
    rw [h] at hf
    rcases runLoop_executed_mem env S _ _ f hf with h0 | ⟨_, he, _⟩
    · simp [initState, executed] at h0
    · exact he

theorem not_eligible_of_marker (S f : String) (hne : S ≠ "") (hle : lessString S f = false) :
    eligible S f = false := by
  cases he : eligible S f with
  | false => rfl
  | true =>
    rcases (eligible_iff S f).1 he with h | h
    · exact absurd h hne
    · rw [(lessString_iff S f).2 h] at hle
      exact absurd hle (by decide)

/-! ## A run that finds nothing to do, and a run without failures -/

theorem runLoop_nothing (env : Env) (S : String) :
    ∀ (fs : List String) (s : LoopState),
      (∀ g ∈ fs.takeWhile checkFileNameFormat, eligible S g = false) →
      (runLoop env S fs s).db = s.db ∧
      executed (runLoop env S fs s).trace = executed s.trace ∧
      committed (runLoop env S fs s).trace = committed s.trace ∧
      recorded (runLoop env S fs s).trace = recorded s.trace ∧
      (runLoop env S fs s).completedCount = s.completedCount ∧
      (runLoop env S fs s).lastCompleted = s.lastCompleted := by
  intro fs
  induction fs with
  | nil =>
    intro s _
    simp [runLoop]
  | cons f fs ih =>
    intro s h
    cases hv : checkFileNameFormat f with
    | false =>
      rw [runLoop_brk env S f fs s _ (loopBody_invalid env S s f hv)]
      simp [executed, committed, recorded, writes]
    | true =>
      rw [List.takeWhile_cons, hv] at h
      simp only [if_true] at h
      have he := h f (List.mem_cons_self _ _)
      rw [runLoop_next env S f fs s s (loopBody_skip env S s f hv he)]
      exact ih s (fun g hg => h g (List.mem_cons_of_mem _ hg))

theorem runLoop_clean (env : Env) (S : String) :
    ∀ (fs : List String) (s : LoopState),
      rolledBack (runLoop env S fs s).trace = [] →
      (∀ w ∈ writes (runLoop env S fs s).trace, w.2 = true) →
      ∀ g ∈ fs.takeWhile checkFileNameFormat, eligible S g = true →
        g ∈ recorded (runLoop env S fs s).trace := by
  intro fs
  induction fs with
  | nil =>
    intro s _ _ g hg
    simp at hg
  | cons f fs ih =>
    intro s hrb hwr g hg hge
    rcases loopBody_cases env S s f with ⟨hv, _⟩ | ⟨hv, he, hb⟩ | ⟨_, _, _, hb⟩ | ⟨hv, he, hx, _⟩
    · rw [List.takeWhile_cons, hv] at hg
      simp at hg
    · rw [List.takeWhile_cons, hv] at hg
      simp only [if_true] at hg
      rw [runLoop_next env S f fs s s hb] at hrb hwr ⊢
      rcases List.mem_cons.1 hg with h | h
      · rw [h, he] at hge
        exact absurd hge (by decide)
      · exact ih s hrb hwr g h hge
    · exfalso
      rw [runLoop_brk env S f fs s _ hb] at hrb
      have h1 : f ∈ rolledBack (s.trace ++ [Event.exec f (fileContent env f),
          Event.rollback f]) := by
        rw [mem_rolledBack]
        simp
      rw [hrb] at h1
      exact absurd h1 (List.not_mem_nil _)
    · obtain ⟨s2, hb, htr, _⟩ := loopBody_ok_ex env S s f hv he hx
      rw [List.takeWhile_cons, hv] at hg
      simp only [if_true] at hg
      rw [runLoop_next env S f fs s s2 hb] at hrb hwr ⊢
      rcases List.mem_cons.1 hg with h | h
      · have hev : Event.record f (env.insertOk
            { s.db with schema := s.db.schema ++ [fileContent env f] } f)
            ∈ (runLoop env S fs s2).trace := by
          apply runLoop_trace_mono
          rw [htr]
          simp
        have hok := hwr _ ((mem_writes _ _ _).2 hev)
        simp only at hok
        rw [hok] at hev
        rw [h]
        exact (mem_recorded _ f).2 hev
      · exact ih s2 hrb hwr g h hge

theorem readMetadata_cases (env : Env) (db : DB) (S : String)
    (h : readMetadata env db = some S) :
    env.createOk = true ∧
    ((env.getOk = false ∧ S = "") ∨ (env.getOk = true ∧ S = db.metadata.getLast?.getD "")) := by
  unfold readMetadata at h
  cases hc : env.createOk with
  | false =>
    rw [hc] at h
    simp at h
  | true =>
    rw [hc] at h
    cases hgo : env.getOk with
    | false =>
      rw [hgo] at h
      simp only [Bool.not_true, Bool.false_eq_true, if_false, Bool.not_false, if_true,
        Option.some.injEq] at h
      exact ⟨rfl, Or.inl ⟨rfl, h.symm⟩⟩
    | true =>
      rw [hgo] at h
      refine ⟨rfl, Or.inr ⟨rfl, ?_⟩⟩
      cases hl : db.metadata.getLast? with
      | none =>
        rw [hl] at h
        simp only [Bool.not_true, Bool.false_eq_true, if_false, Option.some.injEq] at h
        rw [← h]
        rfl
      | some x =>
        rw [hl] at h
        simp only [Bool.not_true, Bool.false_eq_true, if_false, Option.some.injEq] at h
        rw [← h]
        rfl

theorem readMetadata_ok (env : Env) (db : DB) (hc : env.createOk = true)
    (hgo : env.getOk = true) : readMetadata env db = some (db.metadata.getLast?.getD "") := by
  unfold readMetadata
  rw [hc, hgo]
  cases db.metadata.getLast? <;> rfl

theorem readMetadata_fatal (env : Env) (db : DB) (hc : env.createOk = false) :
    readMetadata env db = none := by
  unfold readMetadata
  rw [hc]
  rfl

theorem sortStrings_congr (l1 l2 : List String) (h : l1.Perm l2) :
    sortStrings l1 = sortStrings l2 :=
  List.eq_of_perm_of_sorted
    (((sortStrings_perm l1).trans h).trans (sortStrings_perm l2).symm)
    (sortStrings_sorted l1) (sortStrings_sorted l2)

theorem second_marker_blocks (env1 : Env) (db : DB) (files : List String) (S1 : String)
    (hg1 : env1.glob = some files) (hS1 : readMetadata env1 db = some S1)
    (hrb : rolledBack (MigrateDB env1 db).trace = [])
    (hwr : ∀ w ∈ writes (MigrateDB env1 db).trace, w.2 = true) :
    ∀ g ∈ (sortStrings files).takeWhile checkFileNameFormat,
      eligible ((MigrateDB env1 db).db.metadata.getLast?.getD "") g = false := by
  have hbk := MigrateDB_bookkeeping env1 db
  have hdone := MigrateDB_done env1 db files S1 hg1 hS1
  have htr : (MigrateDB env1 db).trace
      = (runLoop env1 S1 (sortStrings files) (initState db)).trace := by rw [hdone]
  have hclean : ∀ g ∈ (sortStrings files).takeWhile checkFileNameFormat,
      eligible S1 g = true → g ∈ recorded (MigrateDB env1 db).trace := by
    rw [htr] at hrb hwr ⊢
    exact runLoop_clean env1 S1 (sortStrings files) (initState db) hrb hwr
  intro g hg
  cases hl : (recorded (MigrateDB env1 db).trace).getLast? with
  | none =>
    have hnil : recorded (MigrateDB env1 db).trace = [] := List.getLast?_eq_none_iff.1 hl
    have hne : eligible S1 g = false := by
      cases he : eligible S1 g with
      | false => rfl
      | true =>
        have h1 := hclean g hg he
        rw [hnil] at h1
        exact absurd h1 (List.not_mem_nil _)
    rw [hbk.1, hnil, List.append_nil]
    obtain ⟨_, hc⟩ := readMetadata_cases env1 db S1 hS1
    rcases hc with ⟨_, h0⟩ | ⟨_, h0⟩
    · rw [h0] at hne
      exact absurd hne (by simp [eligible])
    · rw [← h0]
      exact hne
  | some L =>
    have hmd : (MigrateDB env1 db).db.metadata.getLast?.getD "" = L := by
      rw [hbk.1, List.getLast?_append, hl]
      rfl
    rw [hmd]
    obtain ⟨ys, hys⟩ := List.getLast?_eq_some_iff.1 hl
    have hLrec : L ∈ recorded (MigrateDB env1 db).trace := by
      rw [hys]
      simp
    have hLex : L ∈ executed (MigrateDB env1 db).trace :=
      MigrateDB_committed_executed env1 db L (MigrateDB_recorded_committed env1 db L hLrec)
    have hLel : eligible S1 L = true := MigrateDB_executed_eligible env1 db S1 hS1 L hLex
    have hLv : checkFileNameFormat L = true := by
      rw [htr] at hLex
      rcases runLoop_executed_mem env1 S1 _ _ L hLex with h0 | ⟨_, _, h0⟩
      · simp [initState, executed] at h0
      · exact h0
    have hLne : L ≠ "" := by
      intro h0
      rw [h0] at hLv
      exact absurd hLv (by decide)
    apply not_eligible_of_marker L g hLne
    rw [lessString_eq_false_iff]
    cases he : eligible S1 g with
    | true =>
      have hsorted : (recorded (MigrateDB env1 db).trace).Sorted (· ≤ ·) :=
        List.Pairwise.sublist (MigrateDB_sublists env1 db files hg1).2.2
          (sortStrings_sorted files)
      exact sorted_le_getLast _ hsorted L hl g (hclean g hg he)
    | false =>
      rcases (eligible_iff S1 L).1 hLel with h0 | h0
      · have h1 : eligible S1 g = true := (eligible_iff S1 g).2 (Or.inl h0)
        rw [he] at h1
        exact absurd h1 (by decide)
      · have h2 : ¬ S1 < g := fun h3 => by
          have h4 : eligible S1 g = true := (eligible_iff S1 g).2 (Or.inr h3)
          rw [he] at h4
          exact absurd h4 (by decide)
        exact le_trans (not_lt.1 h2) (le_of_lt h0)

theorem status_done_marker (env : Env) (db : DB) (files : List String)
    (hg : env.glob = some files) (hdone : (MigrateDB env db).status = Status.done) :
    ∃ S, readMetadata env db = some S := by
  cases hr : readMetadata env db with
  | some S => exact ⟨S, rfl⟩
  | none =>
    have h : (MigrateDB env db).status = Status.fatal := by simp [MigrateDB, hg, hr]
    rw [h] at hdone
    exact absurd hdone (by decide)

theorem MigrateDB_fatal (env : Env) (db : DB) (files : List String)
    (hg : env.glob = some files) (hr : readMetadata env db = none) :
    MigrateDB env db = { initState db with status := Status.fatal } := by
  simp [MigrateDB, hg, hr]

theorem sublist_eq_of_forall_mem (l1 l2 : List String) (hs : l1.Sublist l2)
    (hnd : l2.Nodup) (hall : ∀ x ∈ l2, x ∈ l1) : l1 = l2 :=
  hs.eq_of_length_le (List.Nodup.subperm hnd hall).length_le

/-! ## Claims -/

/-- C1 (as the claim states it, refuted): the path of script 1 as the glob returns it,
`migrations/scripts/00000000000000000001_init.sql`, is accepted by `checkFileNameFormat`
although it is not exactly `scripts/` + 20 digits + `_` + name + `.sql`. -/
theorem checkFileNameFormat_not_exact :
    ¬ (checkFileNameFormat script1 = true ↔ isValidNameSpec script1) := by
  intro h
  have hv : checkFileNameFormat script1 = true := by decide
  obtain ⟨ds, name, hf, _⟩ := h.1 hv
  have h1 := congrArg (fun x : String => x.toList.head?) hf
  simp only [toList_append] at h1
  have e1 : "scripts/".toList = 's' :: "cripts/".toList := rfl
  have e2 : script1.toList = 'm' :: "igrations/scripts/00000000000000000001_init.sql".toList := rfl
  rw [e1, e2] at h1
  simp at h1

/-- C1 (amended): `checkFileNameFormat` accepts every name that ends with `scripts/` + exactly
20 decimal digits + `_` + one or more non-whitespace characters + `.sql`, whatever precedes
`scripts/`; and every name it accepts contains `scripts/` immediately followed by exactly 20
decimal digits, `_`, one or more non-whitespace characters, one further character and `sql`. -/
theorem checkFileNameFormat_unanchored (f : String) :
    ((∃ pre ds name : String, f = pre ++ "scripts/" ++ ds ++ "_" ++ name ++ ".sql" ∧
        ds.length = 20 ∧ (∀ c ∈ ds.toList, isDigit c = true) ∧ name ≠ "" ∧
        (∀ c ∈ name.toList, isNonSpace c = true)) → checkFileNameFormat f = true) ∧
    (checkFileNameFormat f = true →
      ∃ (pre ds name : String) (c : Char) (post : String),
        f = pre ++ "scripts/" ++ ds ++ "_" ++ name ++ String.singleton c ++ "sql" ++ post ∧
        ds.length = 20 ∧ (∀ c ∈ ds.toList, isDigit c = true) ∧ name ≠ "" ∧
        (∀ c ∈ name.toList, isNonSpace c = true)) := by
  constructor
  · rintro ⟨pre, ds, name, hf, hlen, hds, hne, hname⟩
    refine (checkFileNameFormat_iff f).2
      ⟨pre.toList, ds.toList, name.toList, '.', [], hlen, hds, ?_, hname, by decide, ?_⟩
    · intro h
      exact hne (String.toList_inj.1 h)
    · rw [hf]
      simp only [toList_append, List.append_assoc]
      rfl
  · intro h
    obtain ⟨pre, ds, name, c, post, hlen, hds, hne, hname, _, hf⟩ :=
      (checkFileNameFormat_iff f).1 h
    refine ⟨String.mk pre, String.mk ds, String.mk name, c, String.mk post, ?_, hlen, hds, ?_,
      hname⟩
    · apply String.toList_inj.1
      rw [hf]
      simp only [toList_append, List.append_assoc]
      rfl
    · intro h0
      exact hne (congrArg String.toList h0)

/-- C1 (amended), at the path of script 1 as the glob returns it; next to it, names with 19
digits, without the underscore and with another extension, which are rejected. -/
theorem checkFileNameFormat_unanchored_witness :
    (checkFileNameFormat script1 = true ∧
    ∃ (pre ds name : String) (c : Char) (post : String),
      script1 = pre ++ "scripts/" ++ ds ++ "_" ++ name ++ String.singleton c ++ "sql" ++ post ∧
      ds.length = 20 ∧ (∀ c ∈ ds.toList, isDigit c = true) ∧ name ≠ "" ∧
      (∀ c ∈ name.toList, isNonSpace c = true)) ∧
    checkFileNameFormat "migrations/scripts/0000000000000000001_init.sql" = false ∧
    checkFileNameFormat "migrations/scripts/00000000000000000001init.sql" = false ∧
    checkFileNameFormat "migrations/scripts/00000000000000000001_init.txt" = false :=
  have hv : checkFileNameFormat script1 = true :=
    (checkFileNameFormat_unanchored script1).1
      ⟨"migrations/", "00000000000000000001", "init", by decide, by decide, by decide,
        by decide, by decide⟩
  ⟨⟨hv, (checkFileNameFormat_unanchored script1).2 hv⟩, by decide, by decide, by decide⟩

/-- C7: two paths with the same directory part whose file names begin with distinct 20-digit
decimal timestamps are ordered by the string comparison of `MigrateDB` (the `<` of
`sort.Strings`, `strings.Compare`, and hence the sorted slice) exactly as the numeric values of
the timestamps are, whatever follows the timestamps. -/
theorem lexical_order_is_chronological (dir d1 d2 r1 r2 : String)
    (h1 : d1.length = 20) (h2 : d2.length = 20)
    (hd1 : ∀ c ∈ d1.toList, isDigit c = true) (hd2 : ∀ c ∈ d2.toList, isDigit c = true)
    (hne : d1 ≠ d2) :
    (lessString (dir ++ d1 ++ r1) (dir ++ d2 ++ r2) = true
      ↔ decimalValue d1.toList < decimalValue d2.toList) ∧
    (stringsCompare (dir ++ d1 ++ r1) (dir ++ d2 ++ r2) > 0
      ↔ decimalValue d2.toList < decimalValue d1.toList) ∧
    sortStrings [dir ++ d1 ++ r1, dir ++ d2 ++ r2]
      = (if decimalValue d1.toList < decimalValue d2.toList
          then [dir ++ d1 ++ r1, dir ++ d2 ++ r2] else [dir ++ d2 ++ r2, dir ++ d1 ++ r1]) := by
  have hab := path_lt_iff dir d1 d2 r1 r2 h1 h2 hd1 hd2 hne
  have hba := path_lt_iff dir d2 d1 r2 r1 h2 h1 hd2 hd1 (Ne.symm hne)
  refine ⟨?_, ?_, ?_⟩
  · rw [lessString_iff]
    exact hab
  · rw [stringsCompare_pos_iff]
    exact hba
  · by_cases hlt : decimalValue d1.toList < decimalValue d2.toList
    · have hnot : ¬ (dir ++ d2 ++ r2 < dir ++ d1 ++ r1) := not_lt.2 (le_of_lt (hab.2 hlt))
      have hr : lessString (dir ++ d2 ++ r2) (dir ++ d1 ++ r1) = false := by
        rw [lessString_eq_false_iff]
        exact not_lt.1 hnot
      rw [if_pos hlt]
      simp [sortStrings, List.insertionSort, List.orderedInsert, hr]
    · have hr : lessString (dir ++ d2 ++ r2) (dir ++ d1 ++ r1) = true := by
        rw [lessString_iff]
        rcases lt_trichotomy (dir ++ d1 ++ r1) (dir ++ d2 ++ r2) with h | h | h
        · exact absurd (hab.1 h) hlt
        · exfalso
          have h3 := congrArg String.toList h
          simp only [toList_append, List.append_assoc] at h3
          have h4 := List.append_cancel_left h3
          have hl : d1.toList.length = d2.toList.length := by
            have a1 : d1.toList.length = 20 := h1
            have a2 : d2.toList.length = 20 := h2
            rw [a1, a2]
          exact hne (String.toList_inj.1 (List.append_inj h4 hl).1)
        · exact h
      rw [if_neg hlt]
      simp [sortStrings, List.insertionSort, List.orderedInsert, hr]

/-- C7 at the timestamps of scripts 1 and 2 of the scenarios. -/
theorem lexical_order_is_chronological_witness :
    (lessString ("migrations/scripts/" ++ "00000000000000000001" ++ "_init.sql")
        ("migrations/scripts/" ++ "00000000000000000002" ++ "_users.sql") = true
      ↔ decimalValue "00000000000000000001".toList < decimalValue "00000000000000000002".toList) ∧
    (stringsCompare ("migrations/scripts/" ++ "00000000000000000001" ++ "_init.sql")
        ("migrations/scripts/" ++ "00000000000000000002" ++ "_users.sql") > 0
      ↔ decimalValue "00000000000000000002".toList < decimalValue "00000000000000000001".toList) ∧
    sortStrings ["migrations/scripts/" ++ "00000000000000000001" ++ "_init.sql",
        "migrations/scripts/" ++ "00000000000000000002" ++ "_users.sql"]
      = (if decimalValue "00000000000000000001".toList
            < decimalValue "00000000000000000002".toList
          then ["migrations/scripts/" ++ "00000000000000000001" ++ "_init.sql",
            "migrations/scripts/" ++ "00000000000000000002" ++ "_users.sql"]
          else ["migrations/scripts/" ++ "00000000000000000002" ++ "_users.sql",
            "migrations/scripts/" ++ "00000000000000000001" ++ "_init.sql"]) :=
  lexical_order_is_chronological "migrations/scripts/" "00000000000000000001"
    "00000000000000000002" "_init.sql" "_users.sql" (by decide) (by decide) (by decide)
    (by decide) (by decide)

/-- C2: when `readMetadata` returns a non-empty marker `S`, a run executes, commits and
records only files lexically strictly greater than `S`; the rows it appends to the
bookkeeping table are exactly the recorded files; so a file equal to or less than `S` is
neither executed nor given a new row. -/
theorem resume_after_marker (env : Env) (db : DB) (S : String)
    (hS : readMetadata env db = some S) (hne : S ≠ "") :
    (∀ f ∈ executed (MigrateDB env db).trace, lessString S f = true) ∧
    (∀ f ∈ committed (MigrateDB env db).trace, lessString S f = true) ∧
    (∀ f ∈ recorded (MigrateDB env db).trace, lessString S f = true) ∧
    (MigrateDB env db).db.metadata = db.metadata ++ recorded (MigrateDB env db).trace ∧
    (∀ f, lessString S f = false →
      f ∉ executed (MigrateDB env db).trace ∧ f ∉ committed (MigrateDB env db).trace ∧
      f ∉ recorded (MigrateDB env db).trace) := by
  have hbk := MigrateDB_bookkeeping env db
  have hex : ∀ f ∈ executed (MigrateDB env db).trace, lessString S f = true := by
    intro f hf
    rcases MigrateDB_cases env db with h | ⟨files, S1, _, hr, _, h⟩
    · rw [h] at hf
      simp [initState, executed] at hf
    · rw [hS] at hr
      have hSS : S = S1 := Option.some.inj hr
      subst hSS
      rw [h] at hf
      rcases runLoop_executed_mem env S _ _ f hf with h0 | ⟨_, he, _⟩
      · simp [initState, executed] at h0
      · rcases (eligible_iff S f).1 he with h1 | h1
        · exact absurd h1 hne
        · exact (lessString_iff S f).2 h1
  have hce : ∀ f ∈ committed (MigrateDB env db).trace, f ∈ executed (MigrateDB env db).trace := by
    rcases MigrateDB_cases env db with h | ⟨files, S1, _, _, _, h⟩
    · rw [h]
      simp [initState, committed]
    · rw [h]
      exact runLoop_committed_executed env S1 _ _ (by simp [initState, committed])
  have hco : ∀ f ∈ committed (MigrateDB env db).trace, lessString S f = true :=
    fun f hf => hex f (hce f hf)
  have hre : ∀ f ∈ recorded (MigrateDB env db).trace, lessString S f = true :=
    fun f hf => hco f (recorded_subset_committed env db _ hbk f hf)
  refine ⟨hex, hco, hre, hbk.1, ?_⟩
  intro f hf
  refine ⟨fun h => ?_, fun h => ?_, fun h => ?_⟩
  · rw [hex f h] at hf
    exact absurd hf (by decide)
  · rw [hco f h] at hf
    exact absurd hf (by decide)
  · rw [hre f h] at hf
    exact absurd hf (by decide)

/-- C2 at the scenario: scripts 1 and 2 are recorded, the same three files are present; only
script 3 is applied and the count is 1. -/
theorem resume_after_marker_witness :
    readMetadata (healthyEnv threeScripts) dbAfterScript2 = some script2 ∧ script2 ≠ "" ∧
    ((∀ f ∈ executed (MigrateDB (healthyEnv threeScripts) dbAfterScript2).trace,
        lessString script2 f = true) ∧
     (∀ f ∈ committed (MigrateDB (healthyEnv threeScripts) dbAfterScript2).trace,
        lessString script2 f = true) ∧
     (∀ f ∈ recorded (MigrateDB (healthyEnv threeScripts) dbAfterScript2).trace,
        lessString script2 f = true) ∧
     (MigrateDB (healthyEnv threeScripts) dbAfterScript2).db.metadata
        = dbAfterScript2.metadata
          ++ recorded (MigrateDB (healthyEnv threeScripts) dbAfterScript2).trace ∧
     (∀ f, lessString script2 f = false →
        f ∉ executed (MigrateDB (healthyEnv threeScripts) dbAfterScript2).trace ∧
        f ∉ committed (MigrateDB (healthyEnv threeScripts) dbAfterScript2).trace ∧
        f ∉ recorded (MigrateDB (healthyEnv threeScripts) dbAfterScript2).trace)) ∧
    executed (MigrateDB (healthyEnv threeScripts) dbAfterScript2).trace = [script3] ∧
    recorded (MigrateDB (healthyEnv threeScripts) dbAfterScript2).trace = [script3] ∧
    (MigrateDB (healthyEnv threeScripts) dbAfterScript2).report
      = some (Report.completed 1 script3) :=
  ⟨by decide, by decide,
    resume_after_marker (healthyEnv threeScripts) dbAfterScript2 script2 (by decide) (by decide),
    by rfl, by rfl, by rfl⟩

/-- C4: when the sorted list of discovered files is `pre ++ f :: post` with `f` the first file
that fails `checkFileNameFormat`, a run executes, commits and records neither `f` nor any file
of `post`, and appends no row for them, whatever the marker and wherever `f` sorts relative to
it. -/
theorem halt_on_bad_name (env : Env) (db : DB) (files pre post : List String) (f : String)
    (hg : env.glob = some files) (hsplit : sortStrings files = pre ++ f :: post)
    (hpre : ∀ g ∈ pre, checkFileNameFormat g = true) (hf : checkFileNameFormat f = false) :
    (MigrateDB env db).db.metadata = db.metadata ++ recorded (MigrateDB env db).trace ∧
    ∀ g ∈ f :: post,
      g ∉ executed (MigrateDB env db).trace ∧ g ∉ committed (MigrateDB env db).trace ∧
      g ∉ recorded (MigrateDB env db).trace := by
  have hbk := MigrateDB_bookkeeping env db
  have hex : ∀ g ∈ f :: post, g ∉ executed (MigrateDB env db).trace := by
    intro g hg2 hge
    rcases MigrateDB_cases env db with h | ⟨files1, S, hg1, _, _, h⟩
    · rw [h] at hge
      simp [initState, executed] at hge
    · rw [hg] at hg1
      have hff : files = files1 := Option.some.inj hg1
      subst hff
      rw [h, hsplit] at hge
      rcases runLoop_bad_name env S pre post f _ hf g hge with h0 | h0
      · simp [initState, executed] at h0
      · have hs := sortStrings_sorted files
        rw [hsplit] at hs
        have hgf := sorted_split_eq pre post f g hs h0 hg2
        rw [hgf] at h0
        rw [hpre f h0] at hf
        exact absurd hf (by decide)
  refine ⟨hbk.1, fun g hg2 => ⟨hex g hg2, fun h => ?_, fun h => ?_⟩⟩
  · exact hex g hg2 (MigrateDB_committed_executed env db g h)
  · exact hex g hg2
      (MigrateDB_committed_executed env db g (MigrateDB_recorded_committed env db g h))

/-- C4 at a scenario: the marker is script 2, the malformed name sorts before it and script 3
after it; nothing is executed, and script 3 is never attempted. -/
theorem halt_on_bad_name_witness :
    (healthyEnv withBadName).glob = some withBadName ∧
    sortStrings withBadName = [script1] ++ badName :: [script3] ∧
    (∀ g ∈ [script1], checkFileNameFormat g = true) ∧ checkFileNameFormat badName = false ∧
    ((MigrateDB (healthyEnv withBadName) dbAfterScript2).db.metadata
        = dbAfterScript2.metadata
          ++ recorded (MigrateDB (healthyEnv withBadName) dbAfterScript2).trace ∧
      ∀ g ∈ badName :: [script3],
        g ∉ executed (MigrateDB (healthyEnv withBadName) dbAfterScript2).trace ∧
        g ∉ committed (MigrateDB (healthyEnv withBadName) dbAfterScript2).trace ∧
        g ∉ recorded (MigrateDB (healthyEnv withBadName) dbAfterScript2).trace) ∧
    lessString badName script2 = true ∧ checkFileNameFormat script3 = true ∧
    (MigrateDB (healthyEnv withBadName) dbAfterScript2).trace = [Event.invalidName badName] :=
  ⟨rfl, by decide, by decide, by decide,
    halt_on_bad_name (healthyEnv withBadName) dbAfterScript2 withBadName [script1] [script3]
      badName rfl (by decide) (by decide) (by decide),
    by decide, by decide, by rfl⟩

/-- C3 (as the claim states it, refuted): the insert for script 1 is refused and the execution
of script 2 fails; script 1, eligible and before the failing file, is committed but has no
metadata record. -/
theorem committed_before_failure_without_record :
    sortStrings threeScripts = [script1] ++ script2 :: [script3] ∧
    script2 ∈ rolledBack (MigrateDB writeThenExecFailEnv emptyDb).trace ∧
    script1 ∉ rolledBack (MigrateDB writeThenExecFailEnv emptyDb).trace ∧
    eligible "" script1 = true ∧
    script1 ∈ committed (MigrateDB writeThenExecFailEnv emptyDb).trace ∧
    (MigrateDB writeThenExecFailEnv emptyDb).db = { schema := [script1], metadata := [] } ∧
    script1 ∉ (MigrateDB writeThenExecFailEnv emptyDb).db.metadata :=
  ⟨by decide, by decide, by decide, by decide, by decide, by rfl, by decide⟩

/-- C3 (amended): in a run where the execution of `f`, at position `N` of the sorted list
`pre ++ f :: post`, fails: the run ends with the database as the loop over the files before
`f` left it, and its calls are those made for these files followed by the failed, rolled back
attempt; no file after `f` is executed, committed or recorded; `f` is neither committed nor
recorded, and the database holds exactly the committed batches and the recorded rows; every
eligible file before `f` is committed, its batch is in the database, and its row is in the
bookkeeping table (the one case without a row being a file whose own insert was refused);
every row recorded in the run is in the bookkeeping table. -/
theorem halt_on_failure (env : Env) (db : DB) (files pre post : List String) (f S : String)
    (hg : env.glob = some files) (hnd : files.Nodup) (hS : readMetadata env db = some S)
    (hsplit : sortStrings files = pre ++ f :: post)
    (hfail : f ∈ rolledBack (MigrateDB env db).trace) :
    ((MigrateDB env db).db = (runLoop env S pre (initState db)).db ∧
      (MigrateDB env db).trace = (runLoop env S pre (initState db)).trace
        ++ [Event.exec f (fileContent env f), Event.rollback f]) ∧
    (∀ g ∈ post, g ∉ executed (MigrateDB env db).trace ∧
      g ∉ committed (MigrateDB env db).trace ∧ g ∉ recorded (MigrateDB env db).trace) ∧
    (f ∉ committed (MigrateDB env db).trace ∧ f ∉ recorded (MigrateDB env db).trace ∧
      (MigrateDB env db).db.metadata = db.metadata ++ recorded (MigrateDB env db).trace ∧
      (MigrateDB env db).db.schema
        = db.schema ++ (committed (MigrateDB env db).trace).map (fileContent env)) ∧
    (∀ g ∈ pre, eligible S g = true →
      g ∈ committed (MigrateDB env db).trace ∧
      fileContent env g ∈ (MigrateDB env db).db.schema ∧
      (g ∈ (MigrateDB env db).db.metadata ∨ (g, false) ∈ writes (MigrateDB env db).trace)) ∧
    (∀ g ∈ recorded (MigrateDB env db).trace, g ∈ (MigrateDB env db).db.metadata) := by
  have hbk := MigrateDB_bookkeeping env db
  have hce := MigrateDB_committed_executed env db
  have hrc := MigrateDB_recorded_committed env db
  have hnd1 : (pre ++ f :: post).Nodup := by
    rw [← hsplit]
    exact sortStrings_nodup files hnd
  have hfpre : f ∉ pre := fun h =>
    (List.nodup_append.1 hnd1).2.2 h (List.mem_cons_self _ _) 
  have hfpost : f ∉ post := (List.nodup_cons.1 (List.nodup_append.1 hnd1).2.1).1
  have hdone := MigrateDB_done env db files S hg hS
  have hls : (MigrateDB env db).toLoopState
      = runLoop env S (pre ++ f :: post) (initState db) := by
    rw [hdone, hsplit]
  have htr : (MigrateDB env db).trace
      = (runLoop env S (pre ++ f :: post) (initState db)).trace := by
    rw [hdone, hsplit]
  have hdb : (MigrateDB env db).db = (runLoop env S (pre ++ f :: post) (initState db)).db := by
    rw [hdone, hsplit]
  rw [htr] at hfail
  obtain ⟨s1, hr, hv, he, hx, hrun⟩ := runLoop_fail_split env S pre post f (initState db)
    (by simp [initState]) hfpre hfpost hfail
  have hs1 := reach_eq_runLoop env S pre _ s1 hr
  have hno := reach_no_event env S pre f _ s1 hr (by simp [initState]) hfpre
  obtain ⟨_, _, _, hcom⟩ := reach_facts env S pre _ s1 hr
  have htr2 : (MigrateDB env db).trace
      = s1.trace ++ [Event.exec f (fileContent env f), Event.rollback f] := by
    rw [htr, hrun]
  have hexe : executed (MigrateDB env db).trace = executed s1.trace ++ [f] := by
    rw [htr2, executed_append]
    rfl
  have hcm : committed (MigrateDB env db).trace = committed s1.trace := by
    rw [htr2, committed_append]
    simp [committed]
  have hfc : f ∉ committed (MigrateDB env db).trace := by
    rw [hcm]
    intro h
    exact hno _ ((mem_committed _ f).1 h) rfl
  have hpostex : ∀ g ∈ post, g ∉ executed (MigrateDB env db).trace := by
    intro g hg h
    rw [hexe] at h
    rcases List.mem_append.1 h with h1 | h1
    · rw [← hs1] at h1
      rcases runLoop_executed_mem env S pre _ g h1 with h2 | ⟨h2, _, _⟩
      · simp [initState, executed] at h2
      · exact (List.nodup_append.1 hnd1).2.2 h2 (List.mem_cons_of_mem _ hg)
    · rw [List.mem_singleton.1 h1] at hg
      exact hfpost hg
  refine ⟨⟨?_, ?_⟩, ?_, ⟨hfc, fun h => hfc (hrc f h), hbk.1, hbk.2.1⟩, ?_, ?_⟩
  · rw [hdb, hrun, hs1]
  · rw [htr2, hs1]
  · intro g hg
    exact ⟨hpostex g hg, fun h => hpostex g hg (hce g h),
      fun h => hpostex g hg (hce g (hrc g h))⟩
  · intro g hg hge
    have h1 : g ∈ committed (MigrateDB env db).trace := by
      rw [hcm]
      exact hcom g hg hge
    refine ⟨h1, ?_, ?_⟩
    · rw [hbk.2.1]
      exact List.mem_append_right _ (List.mem_map.2 ⟨g, h1, rfl⟩)
    · have h2 : g ∈ (writes (MigrateDB env db).trace).map Prod.fst := by
        rw [hbk.2.2.2.2]
        exact h1
      obtain ⟨w, hw, hwg⟩ := List.mem_map.1 h2
      obtain ⟨w1, w2⟩ := w
      simp only at hwg
      subst hwg
      cases w2 with
      | false => exact Or.inr hw
      | true =>
        left
        rw [hbk.1]
        exact List.mem_append_right _
          ((mem_recorded _ w1).2 ((mem_writes _ w1 true).1 hw))
  · intro g hg
    rw [hbk.1]
    exact List.mem_append_right _ hg

/-- C3 (amended) at the scenario: script 2 holds invalid SQL; script 1 is applied and
recorded, script 2 is rolled back and not recorded, script 3 is never attempted. -/
theorem halt_on_failure_witness :
    failingEnv.glob = some threeScripts ∧ threeScripts.Nodup ∧
    readMetadata failingEnv emptyDb = some "" ∧
    sortStrings threeScripts = [script1] ++ script2 :: [script3] ∧
    script2 ∈ rolledBack (MigrateDB failingEnv emptyDb).trace ∧
    (((MigrateDB failingEnv emptyDb).db = (runLoop failingEnv "" [script1] (initState emptyDb)).db ∧
      (MigrateDB failingEnv emptyDb).trace
        = (runLoop failingEnv "" [script1] (initState emptyDb)).trace
          ++ [Event.exec script2 (fileContent failingEnv script2), Event.rollback script2]) ∧
    (∀ g ∈ [script3], g ∉ executed (MigrateDB failingEnv emptyDb).trace ∧
      g ∉ committed (MigrateDB failingEnv emptyDb).trace ∧
      g ∉ recorded (MigrateDB failingEnv emptyDb).trace) ∧
    (script2 ∉ committed (MigrateDB failingEnv emptyDb).trace ∧
      script2 ∉ recorded (MigrateDB failingEnv emptyDb).trace ∧
      (MigrateDB failingEnv emptyDb).db.metadata
        = emptyDb.metadata ++ recorded (MigrateDB failingEnv emptyDb).trace ∧
      (MigrateDB failingEnv emptyDb).db.schema
        = emptyDb.schema
          ++ (committed (MigrateDB failingEnv emptyDb).trace).map (fileContent failingEnv)) ∧
    (∀ g ∈ [script1], eligible "" g = true →
      g ∈ committed (MigrateDB failingEnv emptyDb).trace ∧
      fileContent failingEnv g ∈ (MigrateDB failingEnv emptyDb).db.schema ∧
      (g ∈ (MigrateDB failingEnv emptyDb).db.metadata ∨
        (g, false) ∈ writes (MigrateDB failingEnv emptyDb).trace)) ∧
    (∀ g ∈ recorded (MigrateDB failingEnv emptyDb).trace,
      g ∈ (MigrateDB failingEnv emptyDb).db.metadata)) ∧
    (MigrateDB failingEnv emptyDb).db = { schema := [script1], metadata := [script1] } ∧
    (MigrateDB failingEnv emptyDb).report = some (Report.completed 1 script1) :=
  ⟨rfl, by decide, by decide, by decide, by decide,
    halt_on_failure failingEnv emptyDb threeScripts [script1] [script3] script2 "" rfl
      (by decide) (by decide) (by decide) (by decide),
    by rfl, by rfl⟩

/-- C8 (as the claim states it, refuted): with the metadata insert failing, script 1 is
committed, yet the run appends no row for it. -/
theorem commit_without_record :
    script1 ∈ committed (MigrateDB writeFailEnv emptyDb).trace ∧
    (MigrateDB writeFailEnv emptyDb).db.schema = [script1] ∧
    (MigrateDB writeFailEnv emptyDb).db.metadata = emptyDb.metadata ∧
    (recorded (MigrateDB writeFailEnv emptyDb).trace).count script1 = 0 :=
  ⟨by decide, by rfl, by rfl, by rfl⟩

/-- C8 (amended): the rows a run appends to the bookkeeping table are exactly its recorded
files; `writeMetadata` is called once for each committed script, in the order of the commits,
and no script is committed twice; a script whose call returned true has exactly one appended
row, and any other script, committed or not, has none. -/
theorem one_record_per_recorded_commit (env : Env) (db : DB)
    (hnd : ∀ files, env.glob = some files → files.Nodup) :
    (MigrateDB env db).db.metadata = db.metadata ++ recorded (MigrateDB env db).trace ∧
    (writes (MigrateDB env db).trace).map Prod.fst = committed (MigrateDB env db).trace ∧
    (committed (MigrateDB env db).trace).Nodup ∧
    (∀ f, (f, true) ∈ writes (MigrateDB env db).trace →
      f ∈ committed (MigrateDB env db).trace ∧
      (recorded (MigrateDB env db).trace).count f = 1) ∧
    (∀ f, (f, true) ∉ writes (MigrateDB env db).trace →
      (recorded (MigrateDB env db).trace).count f = 0) ∧
    (∀ f, f ∉ committed (MigrateDB env db).trace →
      (recorded (MigrateDB env db).trace).count f = 0) := by
  have hbk := MigrateDB_bookkeeping env db
  have hrc := MigrateDB_recorded_committed env db
  have hcn : (committed (MigrateDB env db).trace).Nodup := by
    cases hg : env.glob with
    | none =>
      have h : (MigrateDB env db).trace = [] := by simp [MigrateDB, hg, initState]
      rw [h]
      simp [committed]
    | some files =>
      exact (MigrateDB_sublists env db files hg).2.1.nodup (sortStrings_nodup files (hnd files hg))
  have hrn : (recorded (MigrateDB env db).trace).Nodup := by
    have h1 : (List.map Prod.fst (writes (MigrateDB env db).trace)).Nodup := by
      rw [hbk.2.2.2.2]
      exact hcn
    unfold recorded
    exact (List.Sublist.map _ (List.filter_sublist _)).nodup h1
  refine ⟨hbk.1, hbk.2.2.2.2, hcn, ?_, ?_, ?_⟩
  · intro f hf
    have hr : f ∈ recorded (MigrateDB env db).trace :=
      (mem_recorded _ f).2 ((mem_writes _ f true).1 hf)
    exact ⟨hrc f hr, List.count_eq_one_of_mem hrn hr⟩
  · intro f hf
    apply List.count_eq_zero_of_not_mem
    intro h
    exact hf ((mem_writes _ f true).2 ((mem_recorded _ f).1 h))
  · intro f hf
    apply List.count_eq_zero_of_not_mem
    intro h
    exact hf (hrc f h)

/-- C8 (amended) at the run of the three scripts on a fresh database. -/
theorem one_record_per_recorded_commit_witness :
    (∀ files, (healthyEnv threeScripts).glob = some files → files.Nodup) ∧
    (MigrateDB (healthyEnv threeScripts) emptyDb).db.metadata
      = emptyDb.metadata ++ recorded (MigrateDB (healthyEnv threeScripts) emptyDb).trace ∧
    (writes (MigrateDB (healthyEnv threeScripts) emptyDb).trace).map Prod.fst
      = committed (MigrateDB (healthyEnv threeScripts) emptyDb).trace ∧
    (committed (MigrateDB (healthyEnv threeScripts) emptyDb).trace).Nodup ∧
    (∀ f, (f, true) ∈ writes (MigrateDB (healthyEnv threeScripts) emptyDb).trace →
      f ∈ committed (MigrateDB (healthyEnv threeScripts) emptyDb).trace ∧
      (recorded (MigrateDB (healthyEnv threeScripts) emptyDb).trace).count f = 1) ∧
    (∀ f, (f, true) ∉ writes (MigrateDB (healthyEnv threeScripts) emptyDb).trace →
      (recorded (MigrateDB (healthyEnv threeScripts) emptyDb).trace).count f = 0) ∧
    (∀ f, f ∉ committed (MigrateDB (healthyEnv threeScripts) emptyDb).trace →
      (recorded (MigrateDB (healthyEnv threeScripts) emptyDb).trace).count f = 0) :=
  have hnd : ∀ files, (healthyEnv threeScripts).glob = some files → files.Nodup := by
    intro files h
    have h1 : threeScripts = files := Option.some.inj h
    rw [← h1]
    decide
  ⟨hnd, one_record_per_recorded_commit (healthyEnv threeScripts) emptyDb hnd⟩

/-- C6: on a database with an empty bookkeeping table, with distinct discovered paths of the
form `migrations/scripts/` + 20 digits + `_` + name + `.sql`, in a run that ends normally, in
which no execution is rolled back and every call of `writeMetadata` returns true, every file
is executed, committed and recorded once, in strictly ascending order; the bookkeeping table
then lists the files in that order; the count is the number of files and the last completed
file is the greatest one. -/
theorem fresh_database_full_application (env : Env) (db : DB) (files : List String)
    (hg : env.glob = some files) (hnd : files.Nodup)
    (hshape : ∀ f ∈ files, ∃ ds name : String,
      f = "migrations/scripts/" ++ ds ++ "_" ++ name ++ ".sql" ∧ ds.length = 20 ∧
      (∀ c ∈ ds.toList, isDigit c = true) ∧ name ≠ "" ∧
      (∀ c ∈ name.toList, isNonSpace c = true))
    (hempty : db.metadata = [])
    (hdone : (MigrateDB env db).status = Status.done)
    (hrb : rolledBack (MigrateDB env db).trace = [])
    (hwr : ∀ w ∈ writes (MigrateDB env db).trace, w.2 = true) :
    executed (MigrateDB env db).trace = sortStrings files ∧
    committed (MigrateDB env db).trace = sortStrings files ∧
    recorded (MigrateDB env db).trace = sortStrings files ∧
    (MigrateDB env db).db.metadata = sortStrings files ∧
    (MigrateDB env db).db.schema = db.schema ++ (sortStrings files).map (fileContent env) ∧
    (sortStrings files).Sorted (· < ·) ∧ (sortStrings files).Perm files ∧
    (MigrateDB env db).completedCount = files.length ∧
    (MigrateDB env db).report
      = (if files = [] then some Report.noMigrations
          else some (Report.completed files.length (MigrateDB env db).lastCompleted)) ∧
    (files ≠ [] → (MigrateDB env db).lastCompleted ∈ files ∧
      ∀ g ∈ files, lessString (MigrateDB env db).lastCompleted g = false) := by
  have hbk := MigrateDB_bookkeeping env db
  have hperm := sortStrings_perm files
  have hsnd := sortStrings_nodup files hnd
  obtain ⟨S, hS⟩ := status_done_marker env db files hg hdone
  have hS0 : S = "" := by
    obtain ⟨_, hc⟩ := readMetadata_cases env db S hS
    rcases hc with ⟨_, h0⟩ | ⟨_, h0⟩
    · exact h0
    · rw [h0, hempty]
      rfl
  subst hS0
  have htr : (MigrateDB env db).trace
      = (runLoop env "" (sortStrings files) (initState db)).trace := by
    rw [MigrateDB_done env db files "" hg hS]
  have hmem : ∀ f, f ∈ sortStrings files → f ∈ files := fun f hf => hperm.mem_iff.1 hf
  have hvalid : ∀ f ∈ sortStrings files, checkFileNameFormat f = true := by
    intro f hf
    obtain ⟨ds, name, e, a1, a2, a3, a4⟩ := hshape f (hmem f hf)
    exact glob_path_valid f ds name e a1 a2 a3 a4
  have hallrec : ∀ g ∈ sortStrings files, g ∈ recorded (MigrateDB env db).trace := by
    intro g hgm
    have hclean := runLoop_clean env "" (sortStrings files) (initState db)
      (by rw [← htr]; exact hrb) (by rw [← htr]; exact hwr) g
      (by rw [List.takeWhile_eq_self_iff.2 hvalid]; exact hgm) rfl
    rw [htr]
    exact hclean
  obtain ⟨hsub1, hsub2, hsub3⟩ := MigrateDB_sublists env db files hg
  have hallcom : ∀ g ∈ sortStrings files, g ∈ committed (MigrateDB env db).trace :=
    fun g hgm => MigrateDB_recorded_committed env db g (hallrec g hgm)
  have hallexe : ∀ g ∈ sortStrings files, g ∈ executed (MigrateDB env db).trace :=
    fun g hgm => MigrateDB_committed_executed env db g (hallcom g hgm)
  have h1 := sublist_eq_of_forall_mem _ _ hsub1 hsnd hallexe
  have h2 := sublist_eq_of_forall_mem _ _ hsub2 hsnd hallcom
  have h3 := sublist_eq_of_forall_mem _ _ hsub3 hsnd hallrec
  have hcount : (MigrateDB env db).completedCount = files.length := by
    rw [hbk.2.2.1, h2]
    exact hperm.length_eq
  have hlast : (MigrateDB env db).lastCompleted = (sortStrings files).getLast?.getD "" := by
    rw [hbk.2.2.2.1, h2]
  refine ⟨h1, h2, h3, ?_, ?_, (sortStrings_sorted files).lt_of_le hsnd, hperm, hcount, ?_, ?_⟩
  · rw [hbk.1, h3, hempty, List.nil_append]
  · rw [hbk.2.1, h2]
  · unfold Outcome.report
    rw [hdone, hcount]
    by_cases hf : files = []
    · simp [hf]
    · have hpos : files.length > 0 := List.length_pos.2 hf
      simp [hf, hpos]
  · intro hf
    have hne : sortStrings files ≠ [] := by
      intro h0
      rw [h0] at hperm
      exact hf hperm.symm.eq_nil
    cases hl : (sortStrings files).getLast? with
    | none => exact absurd (List.getLast?_eq_none_iff.1 hl) hne
    | some x =>
      rw [hlast, hl]
      simp only [Option.getD_some]
      obtain ⟨ys, hys⟩ := List.getLast?_eq_some_iff.1 hl
      have hx : x ∈ sortStrings files := by
        rw [hys]
        simp
      refine ⟨hmem x hx, fun g hgm => ?_⟩
      rw [lessString_eq_false_iff]
      exact sorted_le_getLast _ (sortStrings_sorted files) x hl g (hperm.mem_iff.2 hgm)

/-- C6 at the scenario, with scripts 2 and 3 depending on script 1: on a fresh database all
three are applied in order, three rows are inserted, and the report names script 3 with
count 3, although script 2 alone would be rejected by the fresh database. -/
theorem fresh_database_full_application_witness :
    dependentEnv.glob = some threeScripts ∧ threeScripts.Nodup ∧
    (∀ f ∈ threeScripts, ∃ ds name : String,
      f = "migrations/scripts/" ++ ds ++ "_" ++ name ++ ".sql" ∧ ds.length = 20 ∧
      (∀ c ∈ ds.toList, isDigit c = true) ∧ name ≠ "" ∧
      (∀ c ∈ name.toList, isNonSpace c = true)) ∧
    emptyDb.metadata = [] ∧
    (MigrateDB dependentEnv emptyDb).status = Status.done ∧
    rolledBack (MigrateDB dependentEnv emptyDb).trace = [] ∧
    (∀ w ∈ writes (MigrateDB dependentEnv emptyDb).trace, w.2 = true) ∧
    (executed (MigrateDB dependentEnv emptyDb).trace = sortStrings threeScripts ∧
    committed (MigrateDB dependentEnv emptyDb).trace = sortStrings threeScripts ∧
    recorded (MigrateDB dependentEnv emptyDb).trace = sortStrings threeScripts ∧
    (MigrateDB dependentEnv emptyDb).db.metadata = sortStrings threeScripts ∧
    (MigrateDB dependentEnv emptyDb).db.schema
      = emptyDb.schema ++ (sortStrings threeScripts).map (fileContent dependentEnv) ∧
    (sortStrings threeScripts).Sorted (· < ·) ∧ (sortStrings threeScripts).Perm threeScripts ∧
    (MigrateDB dependentEnv emptyDb).completedCount = threeScripts.length ∧
    (MigrateDB dependentEnv emptyDb).report
      = (if threeScripts = [] then some Report.noMigrations
          else some (Report.completed threeScripts.length
            (MigrateDB dependentEnv emptyDb).lastCompleted)) ∧
    (threeScripts ≠ [] →
      (MigrateDB dependentEnv emptyDb).lastCompleted ∈ threeScripts ∧
      ∀ g ∈ threeScripts,
        lessString (MigrateDB dependentEnv emptyDb).lastCompleted g = false)) ∧
    dependentEnv.execOk emptyDb (fileContent dependentEnv script2) = false ∧
    sortStrings threeScripts = [script1, script2, script3] ∧
    (MigrateDB dependentEnv emptyDb).report = some (Report.completed 3 script3) :=
  have hshape : ∀ f ∈ threeScripts, ∃ ds name : String,
      f = "migrations/scripts/" ++ ds ++ "_" ++ name ++ ".sql" ∧ ds.length = 20 ∧
      (∀ c ∈ ds.toList, isDigit c = true) ∧ name ≠ "" ∧
      (∀ c ∈ name.toList, isNonSpace c = true) := by
    intro f hf
    simp only [threeScripts, List.mem_cons, List.mem_singleton, List.not_mem_nil,
      or_false] at hf
    rcases hf with h | h | h
    · exact ⟨"00000000000000000003", "orders", by rw [h]; decide, by decide, by decide,
        by decide, by decide⟩
    · exact ⟨"00000000000000000001", "init", by rw [h]; decide, by decide, by decide,
        by decide, by decide⟩
    · exact ⟨"00000000000000000002", "users", by rw [h]; decide, by decide, by decide,
        by decide, by decide⟩
  ⟨rfl, by decide, hshape, rfl, by rfl, by rfl, by decide,
    fresh_database_full_application dependentEnv emptyDb threeScripts rfl
      (by decide) hshape rfl (by rfl) (by rfl) (by decide),
    by decide, by decide, by rfl⟩

/-- C9: in a run in which `writeMetadata` returns false for `f`: `f` is committed and not
rolled back, its batch is in the database, no row is appended for it, it is counted once in
the completed count, it is the file remembered as last completed unless a later file is
completed,
and the loop goes on to the next file `g` of the sorted list, which is rejected when its name
is malformed and executed otherwise, as after a successful write. -/
theorem metadata_write_failure_continues (env : Env) (db : DB) (files : List String)
    (f : String) (hg : env.glob = some files) (hnd : files.Nodup)
    (hw : (f, false) ∈ writes (MigrateDB env db).trace) :
    f ∈ committed (MigrateDB env db).trace ∧ f ∉ rolledBack (MigrateDB env db).trace ∧
    fileContent env f ∈ (MigrateDB env db).db.schema ∧
    f ∉ recorded (MigrateDB env db).trace ∧
    (MigrateDB env db).db.metadata = db.metadata ++ recorded (MigrateDB env db).trace ∧
    (MigrateDB env db).completedCount = (committed (MigrateDB env db).trace).length ∧
    (committed (MigrateDB env db).trace).count f = 1 ∧
    (∀ pre post, sortStrings files = pre ++ f :: post →
      (∀ g ∈ post, g ∉ committed (MigrateDB env db).trace) →
      (MigrateDB env db).lastCompleted = f) ∧
    (∀ pre g post, sortStrings files = pre ++ f :: g :: post →
      (checkFileNameFormat g = false → Event.invalidName g ∈ (MigrateDB env db).trace) ∧
      (checkFileNameFormat g = true →
        Event.exec g (fileContent env g) ∈ (MigrateDB env db).trace)) := by
  have hbk := MigrateDB_bookkeeping env db
  have hev := (mem_writes _ f false).1 hw
  rcases MigrateDB_cases env db with h | ⟨files1, S, hg1, _, _, hls⟩
  · have h0 : (MigrateDB env db).trace = [] := by
      rw [h]
      rfl
    rw [h0] at hev
    simp at hev
  rw [hg] at hg1
  have hff : files = files1 := Option.some.inj hg1
  subst hff
  have hsplitAll : ∀ pre post, sortStrings files = pre ++ f :: post →
      ∃ s1 s2, reach env S pre (initState db) = some s1 ∧ eligible S f = true ∧
        s2.trace = s1.trace ++ [.exec f (fileContent env f), .commit f, .record f false] ∧
        s2.lastCompleted = f ∧ (∀ e ∈ s1.trace, e.file ≠ f) ∧
        (MigrateDB env db).toLoopState = runLoop env S post s2 := by
    intro pre post hsplit
    have hnd1 : (pre ++ f :: post).Nodup := by
      rw [← hsplit]
      exact sortStrings_nodup files hnd
    have hfpre : f ∉ pre := fun h =>
      (List.nodup_append.1 hnd1).2.2 h (List.mem_cons_self _ _)
    have hfpost : f ∉ post := (List.nodup_cons.1 (List.nodup_append.1 hnd1).2.1).1
    have hev1 : Event.record f false ∈ (runLoop env S (pre ++ f :: post) (initState db)).trace := by
      rw [← hsplit, ← hls]
      exact hev
    obtain ⟨s1, s2, hr, _, he, _, _, htr, _, _, _, hlc, _, hrun⟩ :=
      runLoop_write_split env S pre post f (initState db) false (by simp [initState]) hfpre
        hfpost hev1
    refine ⟨s1, s2, hr, he, htr, hlc,
      reach_no_event env S pre f _ s1 hr (by simp [initState]) hfpre, ?_⟩
    rw [hls, hsplit, hrun]
  have hmemf : f ∈ sortStrings files := by
    have h1 : Event.record f false ∈ (runLoop env S (sortStrings files) (initState db)).trace := by
      rw [← hls]
      exact hev
    rcases runLoop_event_mem env S _ _ _ h1 with h | h
    · simp [initState] at h
    · exact h
  obtain ⟨pre0, post0, hsplit0⟩ := List.append_of_mem hmemf
  obtain ⟨s1, s2, hr, he, htr, hlc, hno, hfin⟩ := hsplitAll pre0 post0 hsplit0
  have hnd0 : (pre0 ++ f :: post0).Nodup := by
    rw [← hsplit0]
    exact sortStrings_nodup files hnd
  have hfpost0 : f ∉ post0 := (List.nodup_cons.1 (List.nodup_append.1 hnd0).2.1).1
  have htrace : (MigrateDB env db).trace = (runLoop env S post0 s2).trace := by
    rw [← hfin]
  have hcommit : f ∈ committed (MigrateDB env db).trace := by
    rw [mem_committed, htrace]
    apply runLoop_trace_mono
    rw [htr]
    simp
  have hnotIn : ∀ e, e.file = f → e ∈ (MigrateDB env db).trace →
      e ∈ [Event.exec f (fileContent env f), Event.commit f, Event.record f false] := by
    intro e hef he1
    rw [htrace] at he1
    rcases runLoop_event_mem env S post0 s2 e he1 with h | h
    · rw [htr] at h
      rcases List.mem_append.1 h with h1 | h1
      · exact absurd hef (hno e h1)
      · exact h1
    · rw [hef] at h
      exact absurd h hfpost0
  have hcn : (committed (MigrateDB env db).trace).Nodup :=
    (MigrateDB_sublists env db files hg).2.1.nodup (sortStrings_nodup files hnd)
  refine ⟨hcommit, ?_, ?_, ?_, hbk.1, hbk.2.2.1, List.count_eq_one_of_mem hcn hcommit, ?_, ?_⟩
  · intro h
    have h1 := hnotIn (Event.rollback f) rfl ((mem_rolledBack _ f).1 h)
    simp at h1
  · rw [hbk.2.1]
    exact List.mem_append_right _ (List.mem_map.2 ⟨f, hcommit, rfl⟩)
  · intro h
    have h1 := hnotIn (Event.record f true) rfl ((mem_recorded _ f).1 h)
    simp at h1
  · intro pre post hsplit hnone
    obtain ⟨t1, t2, _, _, htr2, hlc2, _, hfin2⟩ := hsplitAll pre post hsplit
    obtain ⟨Le, Lc, Lr, _, _, h3, h4, _, _⟩ := runLoop_sublists env S post t2
    have hLc : Lc = [] := by
      apply List.eq_nil_iff_forall_not_mem.2
      intro g hgl
      have hgp : g ∈ post := h4.subset hgl
      apply hnone g hgp
      have e : (MigrateDB env db).trace = (runLoop env S post t2).trace := by rw [← hfin2]
      rw [e, h3]
      exact List.mem_append_right _ hgl
    have e : (MigrateDB env db).trace = (runLoop env S post t2).trace := by rw [← hfin2]
    rw [hbk.2.2.2.1, e, h3, hLc, List.append_nil, htr2, committed_append]
    have e2 : committed [Event.exec f (fileContent env f), Event.commit f,
        Event.record f false] = [f] := rfl
    rw [e2, List.getLast?_concat]
    rfl
  · intro pre g post hsplit
    obtain ⟨t1, t2, _, he2, _, _, _, hfin2⟩ := hsplitAll pre (g :: post) hsplit
    have e : (MigrateDB env db).trace = (runLoop env S (g :: post) t2).trace := by
      rw [← hfin2]
    have hlt : f < g := by
      have hs := (sortStrings_sorted files).lt_of_le (sortStrings_nodup files hnd)
      rw [hsplit] at hs
      exact (List.pairwise_cons.1 (List.pairwise_append.1 hs).2.1).1 g
        (List.mem_cons_self _ _)
    have heg : eligible S g = true := eligible_of_lt S f g he2 hlt
    rw [e]
    rcases loopBody_cases env S t2 g with ⟨hv, hb⟩ | ⟨_, hne, _⟩ | ⟨hv, _, _, hb⟩ | ⟨hv, _, hx, _⟩
    · rw [runLoop_brk env S g post t2 _ hb]
      refine ⟨fun _ => by simp, fun h => ?_⟩
      rw [hv] at h
      exact absurd h (by decide)
    · rw [heg] at hne
      exact absurd hne (by decide)
    · rw [runLoop_brk env S g post t2 _ hb]
      refine ⟨fun h => ?_, fun _ => by simp⟩
      rw [hv] at h
      exact absurd h (by decide)
    · obtain ⟨t3, hb, htr3, _⟩ := loopBody_ok_ex env S t2 g hv heg hx
      rw [runLoop_next env S g post t2 t3 hb]
      refine ⟨fun h => ?_, fun _ => ?_⟩
      · rw [hv] at h
        exact absurd h (by decide)
      · apply runLoop_trace_mono
        rw [htr3]
        simp

/-- C9 at a scenario: the insert for script 1 is refused; script 1 stays committed and
counted, and scripts 2 and 3 are applied and recorded after it. -/
theorem metadata_write_failure_continues_witness :
    firstWriteFailEnv.glob = some threeScripts ∧ threeScripts.Nodup ∧
    (script1, false) ∈ writes (MigrateDB firstWriteFailEnv emptyDb).trace ∧
    (script1 ∈ committed (MigrateDB firstWriteFailEnv emptyDb).trace ∧
    script1 ∉ rolledBack (MigrateDB firstWriteFailEnv emptyDb).trace ∧
    fileContent firstWriteFailEnv script1 ∈ (MigrateDB firstWriteFailEnv emptyDb).db.schema ∧
    script1 ∉ recorded (MigrateDB firstWriteFailEnv emptyDb).trace ∧
    (MigrateDB firstWriteFailEnv emptyDb).db.metadata
      = emptyDb.metadata ++ recorded (MigrateDB firstWriteFailEnv emptyDb).trace ∧
    (MigrateDB firstWriteFailEnv emptyDb).completedCount
      = (committed (MigrateDB firstWriteFailEnv emptyDb).trace).length ∧
    (committed (MigrateDB firstWriteFailEnv emptyDb).trace).count script1 = 1 ∧
    (∀ pre post, sortStrings threeScripts = pre ++ script1 :: post →
      (∀ g ∈ post, g ∉ committed (MigrateDB firstWriteFailEnv emptyDb).trace) →
      (MigrateDB firstWriteFailEnv emptyDb).lastCompleted = script1) ∧
    (∀ pre g post, sortStrings threeScripts = pre ++ script1 :: g :: post →
      (checkFileNameFormat g = false →
        Event.invalidName g ∈ (MigrateDB firstWriteFailEnv emptyDb).trace) ∧
      (checkFileNameFormat g = true →
        Event.exec g (fileContent firstWriteFailEnv g)
          ∈ (MigrateDB firstWriteFailEnv emptyDb).trace))) ∧
    (MigrateDB firstWriteFailEnv emptyDb).db
      = { schema := [script1, script2, script3], metadata := [script2, script3] } ∧
    (MigrateDB firstWriteFailEnv emptyDb).report = some (Report.completed 3 script3) :=
  ⟨rfl, by decide, by decide,
    metadata_write_failure_continues firstWriteFailEnv emptyDb threeScripts script1 rfl
      (by decide) (by decide),
    by rfl, by rfl⟩

/-- C10 (as the claim states it, refuted): script 1 cannot be read and the metadata insert is
refused; the empty batch is executed and committed and the count is 1, but script 1 is not
recorded, and the next run executes it again. -/
theorem unreadable_script_not_recorded :
    checkFileNameFormat script1 = true ∧ eligible "" script1 = true ∧
    unreadableWriteFailEnv.readFile script1 = none ∧
    Event.exec script1 "" ∈ (MigrateDB unreadableWriteFailEnv emptyDb).trace ∧
    script1 ∈ committed (MigrateDB unreadableWriteFailEnv emptyDb).trace ∧
    (MigrateDB unreadableWriteFailEnv emptyDb).completedCount = 1 ∧
    (MigrateDB unreadableWriteFailEnv emptyDb).db = { schema := [""], metadata := [] } ∧
    script1 ∈ executed (MigrateDB (healthyEnv [script1])
      (MigrateDB unreadableWriteFailEnv emptyDb).db).trace :=
  ⟨by decide, by decide, by decide, by decide, by decide, by rfl, by rfl, by decide⟩

/-- C10 (amended): when the loop arrives at a validly named, eligible file `f` whose contents
cannot be read (every earlier file is validly named and none is rolled back), the run does not halt
before `f` or skip it: it executes the empty string for `f`; when that execution succeeds, `f`
is committed, the empty batch is in the database, the completed count is incremented,
`writeMetadata` is called for `f` and, its insert succeeding, `f` is recorded in the
bookkeeping table, and then a next run on the resulting database that reads its marker does
not execute `f`; nor does any run whose marker is `f` or a greater name. -/
theorem unreadable_script_is_applied (env : Env) (db : DB) (files pre post : List String)
    (f S : String) (hg : env.glob = some files) (hS : readMetadata env db = some S)
    (hsplit : sortStrings files = pre ++ f :: post)
    (hpre : ∀ g ∈ pre, checkFileNameFormat g = true)
    (hnofail : ∀ g ∈ pre, g ∉ rolledBack (MigrateDB env db).trace)
    (hv : checkFileNameFormat f = true) (he : eligible S f = true)
    (hread : env.readFile f = none) :
    Event.exec f "" ∈ (MigrateDB env db).trace ∧
    (env.execOk (runLoop env S pre (initState db)).db "" = true →
      f ∈ committed (MigrateDB env db).trace ∧ "" ∈ (MigrateDB env db).db.schema ∧
      (MigrateDB env db).completedCount = (committed (MigrateDB env db).trace).length ∧
      (runLoop env S (pre ++ [f]) (initState db)).completedCount
        = (runLoop env S pre (initState db)).completedCount + 1 ∧
      (runLoop env S (pre ++ [f]) (initState db)).lastCompleted = f ∧
      (f, env.insertOk { schema := (runLoop env S pre (initState db)).db.schema ++ [""],
                         metadata := (runLoop env S pre (initState db)).db.metadata } f)
        ∈ writes (MigrateDB env db).trace ∧
      (env.insertOk { schema := (runLoop env S pre (initState db)).db.schema ++ [""],
                      metadata := (runLoop env S pre (initState db)).db.metadata } f = true →
        f ∈ recorded (MigrateDB env db).trace ∧ f ∈ (MigrateDB env db).db.metadata ∧
        ∀ env2, env2.getOk = true →
          f ∉ executed (MigrateDB env2 (MigrateDB env db).db).trace)) ∧
    (∀ env2 db2 S2, readMetadata env2 db2 = some S2 → S2 ≠ "" → lessString S2 f = false →
      f ∉ executed (MigrateDB env2 db2).trace) := by
  have hbk := MigrateDB_bookkeeping env db
  have hdone := MigrateDB_done env db files S hg hS
  have hls : (MigrateDB env db).toLoopState
      = runLoop env S (pre ++ f :: post) (initState db) := by
    rw [hdone, hsplit]
  have htr : (MigrateDB env db).trace
      = (runLoop env S (pre ++ f :: post) (initState db)).trace := by
    rw [hls]
  have hcontent : fileContent env f = "" := by
    unfold fileContent
    rw [hread]
    rfl
  have hlater : ∀ env2 db2 S2, readMetadata env2 db2 = some S2 → S2 ≠ "" →
      lessString S2 f = false → f ∉ executed (MigrateDB env2 db2).trace := by
    intro env2 db2 S2 hS2 hne hle hex
    have h1 := MigrateDB_executed_eligible env2 db2 S2 hS2 f hex
    rw [not_eligible_of_marker S2 f hne hle] at h1
    exact absurd h1 (by decide)
  obtain ⟨s1, hr⟩ : ∃ s1, reach env S pre (initState db) = some s1 := by
    cases hr : reach env S pre (initState db) with
    | some s1 => exact ⟨s1, rfl⟩
    | none =>
      exfalso
      obtain ⟨g, hg1, hc⟩ := reach_none_cause env S pre _ hr
      rcases hc with hc | hc
      · rw [hpre g hg1] at hc
        exact absurd hc (by decide)
      · apply hnofail g hg1
        rw [htr, runLoop_of_reach_none env S (f :: post) pre _ hr]
        exact hc
  have hs1 := reach_eq_runLoop env S pre _ s1 hr
  have hrun := runLoop_of_reach env S (f :: post) pre _ s1 hr
  have hrun1 := runLoop_of_reach env S [f] pre _ s1 hr
  rw [hs1]
  refine ⟨?_, ?_, hlater⟩
  · rw [htr, hrun]
    cases hx : env.execOk s1.db (fileContent env f) with
    | false =>
      rw [runLoop_brk env S f post s1 _ (loopBody_fail env S s1 f hv he hx), hcontent]
      simp
    | true =>
      obtain ⟨s2, hb, htr2, _⟩ := loopBody_ok_ex env S s1 f hv he hx
      rw [runLoop_next env S f post s1 s2 hb]
      apply runLoop_trace_mono
      rw [htr2, hcontent]
      simp
  · intro hx0
    have hx : env.execOk s1.db (fileContent env f) = true := by
      rw [hcontent]
      exact hx0
    obtain ⟨s2, hb, htr2, _, _, hlc, hcc⟩ := loopBody_ok_ex env S s1 f hv he hx
    have hfin : (MigrateDB env db).trace = (runLoop env S post s2).trace := by
      rw [htr, hrun, runLoop_next env S f post s1 s2 hb]
    have hcommit : f ∈ committed (MigrateDB env db).trace := by
      rw [mem_committed, hfin]
      apply runLoop_trace_mono
      rw [htr2]
      simp
    have hone : runLoop env S (pre ++ [f]) (initState db) = s2 := by
      rw [hrun1, runLoop_next env S f [] s1 s2 hb]
      rfl
    rw [hcontent] at htr2
    have hcall : (f, env.insertOk { s1.db with schema := s1.db.schema ++ [""] } f)
        ∈ writes (MigrateDB env db).trace := by
      rw [mem_writes, hfin]
      apply runLoop_trace_mono
      rw [htr2]
      simp
    refine ⟨hcommit, ?_, hbk.2.2.1, ?_, ?_, hcall, ?_⟩
    · rw [hbk.2.1]
      apply List.mem_append_right
      rw [← hcontent]
      exact List.mem_map.2 ⟨f, hcommit, rfl⟩
    · rw [hone, hcc]
    · rw [hone, hlc]
    · intro hi
      have hi1 : env.insertOk { s1.db with schema := s1.db.schema ++ [""] } f = true := hi
      rw [hi1] at hcall
      have hrec : f ∈ recorded (MigrateDB env db).trace :=
        (mem_recorded _ f).2 ((mem_writes _ f true).1 hcall)
      refine ⟨hrec, ?_, ?_⟩
      · rw [hbk.1]
        exact List.mem_append_right _ hrec
      · intro env2 hget
        cases hr2 : readMetadata env2 (MigrateDB env db).db with
        | none =>
          intro hex
          rcases MigrateDB_cases env2 (MigrateDB env db).db with h | ⟨_, S2, _, h0, _, _⟩
          · rw [h] at hex
            simp [initState, executed] at hex
          · rw [hr2] at h0
            exact absurd h0 (by simp)
        | some S2 =>
          obtain ⟨_, hc⟩ := readMetadata_cases env2 _ S2 hr2
          have hS2 : S2 = (MigrateDB env db).db.metadata.getLast?.getD "" := by
            rcases hc with ⟨h0, _⟩ | ⟨_, h0⟩
            · rw [hget] at h0
              exact absurd h0 (by decide)
            · exact h0
          cases hl : (recorded (MigrateDB env db).trace).getLast? with
          | none =>
            rw [List.getLast?_eq_none_iff.1 hl] at hrec
            exact absurd hrec (List.not_mem_nil _)
          | some L =>
            have hmd : (MigrateDB env db).db.metadata.getLast?.getD "" = L := by
              rw [hbk.1, List.getLast?_append, hl]
              rfl
            rw [hmd] at hS2
            obtain ⟨ys, hys⟩ := List.getLast?_eq_some_iff.1 hl
            have hLrec : L ∈ recorded (MigrateDB env db).trace := by
              rw [hys]
              simp
            have hLex : L ∈ executed (MigrateDB env db).trace :=
              MigrateDB_committed_executed env db L
                (MigrateDB_recorded_committed env db L hLrec)
            have hLv : checkFileNameFormat L = true := by
              rw [htr] at hLex
              rcases runLoop_executed_mem env S _ _ L hLex with h0 | ⟨_, _, h0⟩
              · simp [initState, executed] at h0
              · exact h0
            have hLne : L ≠ "" := by
              intro h0
              rw [h0] at hLv
              exact absurd hLv (by decide)
            have hsorted : (recorded (MigrateDB env db).trace).Sorted (· ≤ ·) :=
              List.Pairwise.sublist (MigrateDB_sublists env db files hg).2.2
                (sortStrings_sorted files)
            have hfL : f ≤ L := sorted_le_getLast _ hsorted L hl f hrec
            apply hlater env2 _ S2 hr2
            · rw [hS2]
              exact hLne
            · rw [hS2, lessString_eq_false_iff]
              exact hfL

/-- C10 (amended) at a scenario: script 2 cannot be read; the empty batch is committed in its place,
script 2 is recorded, and a second run does not execute it. -/
theorem unreadable_script_is_applied_witness :
    unreadableEnv.glob = some threeScripts ∧ readMetadata unreadableEnv emptyDb = some "" ∧
    sortStrings threeScripts = [script1] ++ script2 :: [script3] ∧
    (∀ g ∈ [script1], checkFileNameFormat g = true) ∧
    (∀ g ∈ [script1], g ∉ rolledBack (MigrateDB unreadableEnv emptyDb).trace) ∧
    checkFileNameFormat script2 = true ∧ eligible "" script2 = true ∧
    unreadableEnv.readFile script2 = none ∧
    (Event.exec script2 "" ∈ (MigrateDB unreadableEnv emptyDb).trace ∧
    (unreadableEnv.execOk (runLoop unreadableEnv "" [script1] (initState emptyDb)).db ""
        = true →
      script2 ∈ committed (MigrateDB unreadableEnv emptyDb).trace ∧
      "" ∈ (MigrateDB unreadableEnv emptyDb).db.schema ∧
      (MigrateDB unreadableEnv emptyDb).completedCount
        = (committed (MigrateDB unreadableEnv emptyDb).trace).length ∧
      (runLoop unreadableEnv "" ([script1] ++ [script2]) (initState emptyDb)).completedCount
        = (runLoop unreadableEnv "" [script1] (initState emptyDb)).completedCount + 1 ∧
      (runLoop unreadableEnv "" ([script1] ++ [script2]) (initState emptyDb)).lastCompleted
        = script2 ∧
      (script2, unreadableEnv.insertOk
          { schema := (runLoop unreadableEnv "" [script1] (initState emptyDb)).db.schema ++ [""],
            metadata := (runLoop unreadableEnv "" [script1] (initState emptyDb)).db.metadata }
          script2) ∈ writes (MigrateDB unreadableEnv emptyDb).trace ∧
      (unreadableEnv.insertOk
          { schema := (runLoop unreadableEnv "" [script1] (initState emptyDb)).db.schema ++ [""],
            metadata := (runLoop unreadableEnv "" [script1] (initState emptyDb)).db.metadata }
          script2 = true →
        script2 ∈ recorded (MigrateDB unreadableEnv emptyDb).trace ∧
        script2 ∈ (MigrateDB unreadableEnv emptyDb).db.metadata ∧
        ∀ env2, env2.getOk = true →
          script2 ∉ executed (MigrateDB env2 (MigrateDB unreadableEnv emptyDb).db).trace)) ∧
    (∀ env2 db2 S2, readMetadata env2 db2 = some S2 → S2 ≠ "" →
      lessString S2 script2 = false → script2 ∉ executed (MigrateDB env2 db2).trace)) ∧
    (MigrateDB unreadableEnv emptyDb).db
      = { schema := [script1, "", script3], metadata := [script1, script2, script3] } ∧
    executed (MigrateDB unreadableEnv (MigrateDB unreadableEnv emptyDb).db).trace = [] :=
  ⟨rfl, by decide, by decide, by decide, by decide, by decide, by decide, by decide,
    unreadable_script_is_applied unreadableEnv emptyDb threeScripts [script1] [script3]
      script2 "" rfl (by decide) (by decide) (by decide) (by decide) (by decide) (by decide)
      (by decide),
    by rfl, by rfl⟩

/-- C5 (as the claim states it, refuted): after a first run without error, a second run on
the resulting database with the same file executes script 1 again when its marker query
fails, because `readMetadata` then returns the empty marker. -/
theorem second_run_reapplies_after_read_failure :
    (healthyEnv [script1]).glob = some [script1] ∧ readFailEnv.glob = some [script1] ∧
    (MigrateDB (healthyEnv [script1]) emptyDb).status = Status.done ∧
    rolledBack (MigrateDB (healthyEnv [script1]) emptyDb).trace = [] ∧
    (∀ w ∈ writes (MigrateDB (healthyEnv [script1]) emptyDb).trace, w.2 = true) ∧
    (MigrateDB (healthyEnv [script1]) emptyDb).db.metadata = [script1] ∧
    executed (MigrateDB readFailEnv (MigrateDB (healthyEnv [script1]) emptyDb).db).trace
      = [script1] ∧
    (MigrateDB readFailEnv (MigrateDB (healthyEnv [script1]) emptyDb).db).db
      = { schema := [script1, script1], metadata := [script1, script1] } ∧
    (MigrateDB readFailEnv (MigrateDB (healthyEnv [script1]) emptyDb).db).report
      = some (Report.completed 1 script1) :=
  ⟨rfl, rfl, by rfl, by rfl, by decide, by rfl, by rfl, by rfl, by rfl⟩

/-- C5 (amended): if a first run ends normally with no execution rolled back and every
metadata insert succeeding, then a second run on the resulting database with the same files,
whose marker query succeeds, executes, commits and records nothing, leaves the database as it
is, has a completed count of zero and, when it reaches its report, reports that no migrations
were performed. -/
theorem second_run_applies_nothing (env1 env2 : Env) (db : DB) (files1 files2 : List String)
    (hg1 : env1.glob = some files1) (hg2 : env2.glob = some files2)
    (hperm : files1.Perm files2)
    (hdone : (MigrateDB env1 db).status = Status.done)
    (hrb : rolledBack (MigrateDB env1 db).trace = [])
    (hwr : ∀ w ∈ writes (MigrateDB env1 db).trace, w.2 = true)
    (hget : env2.getOk = true) :
    executed (MigrateDB env2 (MigrateDB env1 db).db).trace = [] ∧
    committed (MigrateDB env2 (MigrateDB env1 db).db).trace = [] ∧
    recorded (MigrateDB env2 (MigrateDB env1 db).db).trace = [] ∧
    (MigrateDB env2 (MigrateDB env1 db).db).db = (MigrateDB env1 db).db ∧
    (MigrateDB env2 (MigrateDB env1 db).db).completedCount = 0 ∧
    (env2.createOk = true →
      (MigrateDB env2 (MigrateDB env1 db).db).report = some Report.noMigrations) := by
  cases hc : env2.createOk with
  | false =>
    have hf := readMetadata_fatal env2 (MigrateDB env1 db).db hc
    rw [MigrateDB_fatal env2 (MigrateDB env1 db).db files2 hg2 hf]
    refine ⟨rfl, rfl, rfl, rfl, rfl, fun h0 => absurd h0 (by decide)⟩
  | true =>
    obtain ⟨S1, hS1⟩ := status_done_marker env1 db files1 hg1 hdone
    have hblock := second_marker_blocks env1 db files1 S1 hg1 hS1 hrb hwr
    rw [sortStrings_congr files1 files2 hperm] at hblock
    have hS2 := readMetadata_ok env2 (MigrateDB env1 db).db hc hget
    have h := MigrateDB_done env2 (MigrateDB env1 db).db files2 _ hg2 hS2
    obtain ⟨h1, h2, h3, h4, h5, _⟩ := runLoop_nothing env2
      ((MigrateDB env1 db).db.metadata.getLast?.getD "") (sortStrings files2)
      (initState (MigrateDB env1 db).db) hblock
    rw [h]
    refine ⟨h2, h3, h4, h1, h5, fun _ => ?_⟩
    unfold Outcome.report
    simp only []
    rw [h5]
    rfl

/-- C5 (amended) at the scenario: the three scripts are applied to a fresh database; a second
run that discovers them in another order applies nothing. -/
theorem second_run_applies_nothing_witness :
    (healthyEnv threeScripts).glob = some threeScripts ∧
    (healthyEnv threeScriptsAgain).glob = some threeScriptsAgain ∧
    threeScripts.Perm threeScriptsAgain ∧
    (MigrateDB (healthyEnv threeScripts) emptyDb).status = Status.done ∧
    rolledBack (MigrateDB (healthyEnv threeScripts) emptyDb).trace = [] ∧
    (∀ w ∈ writes (MigrateDB (healthyEnv threeScripts) emptyDb).trace, w.2 = true) ∧
    (healthyEnv threeScriptsAgain).getOk = true ∧
    (executed (MigrateDB (healthyEnv threeScriptsAgain)
        (MigrateDB (healthyEnv threeScripts) emptyDb).db).trace = [] ∧
    committed (MigrateDB (healthyEnv threeScriptsAgain)
        (MigrateDB (healthyEnv threeScripts) emptyDb).db).trace = [] ∧
    recorded (MigrateDB (healthyEnv threeScriptsAgain)
        (MigrateDB (healthyEnv threeScripts) emptyDb).db).trace = [] ∧
    (MigrateDB (healthyEnv threeScriptsAgain) (MigrateDB (healthyEnv threeScripts) emptyDb).db).db
      = (MigrateDB (healthyEnv threeScripts) emptyDb).db ∧
    (MigrateDB (healthyEnv threeScriptsAgain)
        (MigrateDB (healthyEnv threeScripts) emptyDb).db).completedCount = 0 ∧
    ((healthyEnv threeScriptsAgain).createOk = true →
      (MigrateDB (healthyEnv threeScriptsAgain)
        (MigrateDB (healthyEnv threeScripts) emptyDb).db).report = some Report.noMigrations)) :=
  ⟨rfl, rfl, by decide, by rfl, by rfl, by decide, rfl,
    second_run_applies_nothing (healthyEnv threeScripts) (healthyEnv threeScriptsAgain) emptyDb
      threeScripts threeScriptsAgain rfl rfl (by decide) (by rfl) (by rfl) (by decide) rfl⟩

end Migration
